import Mathlib

/-!
Verification development for the pyopensim packaging repository.

Part 1 models the stub repair pipeline of `scripts/python/generate_stubs.py`:
each Python `re.sub` call is embedded as an executable left-to-right scanner
over `List Char`, mirroring the leftmost, non-overlapping, greedy semantics of
the concrete patterns used by the script (all of which are backtracking-free
on their character classes).

Part 2 models the load-time namespace aliasing layer of `src/pyosim/__init__.py`
and the exit-code logic of the stub generation CLI.
-/

namespace PyOpenSim

abbrev Txt := List Char

/-- ASCII uppercase, mirroring the regex class `[A-Z]`. -/
def isUpperCh (c : Char) : Bool := 'A' ≤ c && c ≤ 'Z'

/-- ASCII lowercase, mirroring the regex class `[a-z]`. -/
def isLowerCh (c : Char) : Bool := 'a' ≤ c && c ≤ 'z'

/-- ASCII digit, mirroring `[0-9]`. -/
def isDigitCh (c : Char) : Bool := '0' ≤ c && c ≤ '9'

/-- The regex word class `\w` / `[a-zA-Z_0-9]` (ASCII documents). -/
def isWordCh (c : Char) : Bool := isUpperCh c || isLowerCh c || isDigitCh c || c == '_'

/-- The class `[A-Z_]` used as the first character of the third self-pattern. -/
def isUpperUndCh (c : Char) : Bool := isUpperCh c || c == '_'

/-- The class `[A-Z_0-9]` used for the tail of the third self-pattern. -/
def isUpperUndDigCh (c : Char) : Bool := isUpperCh c || c == '_' || isDigitCh c

/-- The regex whitespace class `\s` (ASCII subset, as matched by Python). -/
def isSpaceCh (c : Char) : Bool :=
  c == ' ' || c == '\t' || c == '\n' || c == '\r' || c == '\x0b' || c == '\x0c'

/-- `startsWithL p l` : `l` begins with the pattern `p`. -/
def startsWithL : Txt → Txt → Bool
  | [], _ => true
  | _ :: _, [] => false
  | p :: ps, c :: cs => p == c && startsWithL ps cs

/-- `containsSub p l` : `p` occurs as a contiguous substring of `l`
(the Python `p in l` test). -/
def containsSub (p : Txt) : Txt → Bool
  | [] => startsWithL p []
  | c :: cs => startsWithL p (c :: cs) || containsSub p cs

/-- `endsWithL p l` : `l` ends with `p` (the Python `l.endswith(p)` test). -/
def endsWithL (p l : Txt) : Bool := startsWithL p.reverse l.reverse

/-- Split a text on newline characters, exactly as Python `str.split('\n')`:
the result always has one more element than the number of newlines. -/
def splitNl : Txt → List Txt
  | [] => [[]]
  | c :: cs =>
    if c = '\n' then [] :: splitNl cs
    else
      match splitNl cs with
      | [] => [[c]]
      | l :: ls => (c :: l) :: ls

/-- Join lines with newline characters, exactly as Python `'\n'.join(lines)`. -/
def joinNl : List Txt → Txt
  | [] => []
  | [l] => l
  | l :: ls => l ++ '\n' :: joinNl ls

/-- Fuel-indexed engine of `replaceAll` (Python `str.replace`): leftmost,
non-overlapping replacement of every occurrence of `pat` by `rep`. -/
def replaceAllGo (pat rep : Txt) : Nat → Txt → Txt
  | 0, l => l
  | _ + 1, [] => []
  | fuel + 1, c :: cs =>
    if startsWithL pat (c :: cs) then rep ++ replaceAllGo pat rep fuel ((c :: cs).drop pat.length)
    else c :: replaceAllGo pat rep fuel cs

/-- Python `str.replace pat rep` for a nonempty `pat`. -/
def replaceAll (pat rep l : Txt) : Txt := replaceAllGo pat rep l.length l

/-- A matcher for one `re.sub` rule: given the word-boundary state (whether the
previous character of the input was a word character) and the rest of the
input, it either fails or returns (replacement text, boundary state after the
consumed characters, unconsumed remainder). -/
abbrev Matcher := Bool → Txt → Option (Txt × Bool × Txt)

/-- Fuel-indexed engine of `re.sub`: scan left to right; at each position try
the matcher; on success emit the replacement and continue after the match (the
replacement itself is not rescanned), otherwise copy one character. -/
def rwGo (m : Matcher) : Nat → Bool → Txt → Txt
  | 0, _, l => l
  | _ + 1, _, [] => []
  | fuel + 1, prev, c :: cs =>
    match m prev (c :: cs) with
    | some (rep, p2, rem) => rep ++ rwGo m fuel p2 rem
    | none => c :: rwGo m fuel (isWordCh c) cs

/-- Run one `re.sub` rule over a whole text.  The fuel `s.length` always
suffices because every matcher consumes at least one character. -/
def runRw (m : Matcher) (s : Txt) : Txt := rwGo m s.length false s

/-- Matcher for the patterns `\bself(<first><rest>*)` → `self, \1` of
`fix_malformed_self_parameters`, parameterised by the two character classes. -/
def selfMatch (first rest : Char → Bool) (prev : Bool) (l : Txt) : Option (Txt × Bool × Txt) :=
  if startsWithL "self".data l then
    match l.drop 4 with
    | d :: tl =>
      if !prev && first d then
        some ("self, ".data ++ d :: tl.takeWhile rest, true, tl.dropWhile rest)
      else none
    | [] => none
  else none

/-- `fix_malformed_self_parameters` from `generate_stubs.py`: the three
substitutions `\bself([A-Z][a-zA-Z_0-9]*)`, `\bself([a-z][a-zA-Z_0-9]*)`,
`\bself([A-Z_][A-Z_0-9]*)` → `self, \1`, applied in that order. -/
def fix_malformed_self_parameters (s : Txt) : Txt :=
  runRw (selfMatch isUpperUndCh isUpperUndDigCh)
    (runRw (selfMatch isLowerCh isWordCh)
      (runRw (selfMatch isUpperCh isWordCh) s))

/-- Matcher for `\bself,\s*self,\s*` → `self, ` of
`fix_duplicate_self_parameters`. -/
def dupMatch (prev : Bool) (l : Txt) : Option (Txt × Bool × Txt) :=
  if prev then none
  else if startsWithL "self,".data l then
    if startsWithL "self,".data ((l.drop 5).dropWhile isSpaceCh) then
      some ("self, ".data, false,
        ((((l.drop 5).dropWhile isSpaceCh).drop 5).dropWhile isSpaceCh))
    else none
  else none

/-- `fix_duplicate_self_parameters` from `generate_stubs.py`. -/
def fix_duplicate_self_parameters (s : Txt) : Txt := runRw dupMatch s

/-- The modification applied to the list of lines by
`fix_missing_type_imports` when a `from typing import` line is present within
the first ten lines: the first line (anywhere) starting with
`from typing import` gets `Any` appended, unless it already mentions `Any`. -/
def extendTyping : List Txt → List Txt
  | [] => []
  | l :: ls =>
    if startsWithL "from typing import".data l then
      (if containsSub "Any".data l then l
       else if endsWithL "import".data l then l ++ " Any".data
       else l ++ ", Any".data) :: ls
    else l :: extendTyping ls

/-- `fix_missing_type_imports` from `generate_stubs.py`: if the document
mentions `Any` and no line among the first ten contains `Any`, extend an
existing `from typing import` line (detected among the first ten lines) or
prepend a fresh `from typing import Any` line. -/
def fix_missing_type_imports (s : Txt) : Txt :=
  if containsSub "Any".data s &&
      !((splitNl s).take 10).any (fun l => containsSub "Any".data l) then
    if ((splitNl s).take 10).any (fun l => containsSub "from typing import".data l) then
      joinNl (extendTyping (splitNl s))
    else joinNl ("from typing import Any".data :: splitNl s)
  else joinNl (splitNl s)

/-- Matcher for `def (\w+)\(\)` → `def \1(self)` (no word-boundary anchor in
the source pattern, so the boundary state is ignored). -/
def defEmptyMatch (_ : Bool) (l : Txt) : Option (Txt × Bool × Txt) :=
  if startsWithL "def ".data l then
    if ((l.drop 4).takeWhile isWordCh).isEmpty then none
    else if startsWithL "()".data ((l.drop 4).dropWhile isWordCh) then
      some ("def ".data ++ (l.drop 4).takeWhile isWordCh ++ "(self)".data, false,
        ((l.drop 4).dropWhile isWordCh).drop 2)
    else none
  else none

/-- The core of the overload matcher, applied after `@overload\s*` has been
consumed: matches `def (\w+)\(self([^)]*)\)([^:]*):(.*)$` at `t2` and returns
the two replacement groups (`\1` and the rest of the rebuilt text) and the
remainder. -/
def overloadTail (t2 : Txt) : Option (Txt × Txt) :=
  if startsWithL "def ".data t2 then
    if ((t2.drop 4).takeWhile isWordCh).isEmpty then none
    else if startsWithL "(self".data ((t2.drop 4).dropWhile isWordCh) then
      match (((t2.drop 4).dropWhile isWordCh).drop 5).dropWhile (· != ')') with
      | ')' :: t7 =>
        match t7.dropWhile (· != ':') with
        | ':' :: t9 =>
          some ("def ".data ++ (t2.drop 4).takeWhile isWordCh ++ "(self".data ++
                  (((t2.drop 4).dropWhile isWordCh).drop 5).takeWhile (· != ')') ++
                  ')' :: t7.takeWhile (· != ':') ++ ':' :: t9.takeWhile (· != '\n'),
                t9.dropWhile (· != '\n'))
        | _ => none
      | _ => none
    else none
  else none

/-- Matcher for the multiline overload pattern
`@overload\s*def (\w+)\(self([^)]*)\)([^:]*):(.*)$` →
`@overload\n    def \1(self\2)\3:\4`. -/
def overloadMatch (_ : Bool) (l : Txt) : Option (Txt × Bool × Txt) :=
  if startsWithL "@overload".data l then
    match overloadTail ((l.drop 9).dropWhile isSpaceCh) with
    | some (body, rem) => some ("@overload\n    ".data ++ body, false, rem)
    | none => none
  else none

/-- Matcher for `def (\w+)\([^)]*,\s*\)` with the replacement
`m.group(0).replace(', )', ')')`: the region before the first closing
parenthesis must end in a comma followed only by whitespace; the replacement
removes a trailing `', )'` (comma, single space, parenthesis) if and only if
the matched text contains exactly that three-character sequence. -/
def trailMatch (_ : Bool) (l : Txt) : Option (Txt × Bool × Txt) :=
  if startsWithL "def ".data l then
    if ((l.drop 4).takeWhile isWordCh).isEmpty then none
    else
      match (l.drop 4).dropWhile isWordCh with
      | '(' :: t3 =>
        match t3.dropWhile (· != ')') with
        | ')' :: rem =>
          match (t3.takeWhile (· != ')')).reverse.dropWhile isSpaceCh with
          | ',' :: _ =>
            some (replaceAll ", )".data ")".data
                    ("def ".data ++ (l.drop 4).takeWhile isWordCh ++
                      '(' :: t3.takeWhile (· != ')') ++ [')']), false, rem)
          | _ => none
        | _ => none
      | _ => none
  else none

/-- `fix_common_swig_issues` from `generate_stubs.py`: the empty-parameter-list
fix, then the overload reflow, then the trailing-comma fix. -/
def fix_common_swig_issues (s : Txt) : Txt :=
  runRw trailMatch (runRw overloadMatch (runRw defEmptyMatch s))

/-- The full repair pipeline applied by `post_process_stub_file` to a
document's text, in source order. -/
def post_process_stub_text (s : Txt) : Txt :=
  fix_common_swig_issues
    (fix_missing_type_imports
      (fix_duplicate_self_parameters
        (fix_malformed_self_parameters s)))

/-- `n` copies of the token `self, ` in a row (used to state how the
duplicate-collapse rule acts on runs of the implicit-parameter token). -/
def selfCommaRun : Nat → Txt
  | 0 => []
  | n + 1 => "self, ".data ++ selfCommaRun n

/-- A name that itself begins with `self` followed by an uppercase letter or
an underscore: exactly the names the third demangling pattern re-splits after
the second pattern has already split the fused identifier once. -/
def startsSelfUpperUnd (l : Txt) : Bool :=
  startsWithL "self".data l &&
    match l.drop 4 with
    | d :: _ => isUpperUndCh d
    | [] => false

/-- A text beginning with `self` followed by a letter or an underscore:
exactly the texts on which one of the three demangling patterns can fire at a
word boundary. -/
def startsSelfFuse (l : Txt) : Bool :=
  startsWithL "self".data l &&
    match l.drop 4 with
    | d :: _ => isUpperCh d || isLowerCh d || d == '_'
    | [] => false

/-!
Part 2: model of the load-time namespace aliasing layer of
`src/pyosim/__init__.py` and of the CLI driver `main` of
`scripts/python/generate_stubs.py`.
-/

/-- A value bound in the package's global namespace: an imported submodule, an
aliased class fetched from a submodule, a string (the version), or Python's
`None` (the unavailable sentinel a failed submodule import is bound to). -/
inductive PyVal where
  | module (name : String)
  | cls (modName clsName : String)
  | str (s : String)
  | pynone
deriving DecidableEq

/-- The import environment: for each submodule name, `some attrs` when the
submodule imports successfully and exposes the attribute names `attrs`, `none`
when importing it raises `ImportError`. -/
abbrev Env := String → Option (List String)

/-- The six submodules imported with a warning on failure. -/
def requiredModules : List String :=
  ["simbody", "common", "simulation", "actuators", "analyses", "tools"]

/-- The three optional submodules imported silently. -/
def optionalModules : List String := ["examplecomponents", "moco", "report"]

/-- Hand-maintained alias list probed on `simbody`. -/
def simbodyClasses : List String :=
  ["Vec3", "Rotation", "Transform", "Inertia", "Gray", "SimTK_PI"]

/-- Hand-maintained alias list probed on `common`. -/
def commonClasses : List String :=
  ["Component", "Property", "Storage", "Array", "StepFunction", "ConsoleReporter"]

/-- Hand-maintained alias list probed on `simulation`. -/
def simulationClasses : List String :=
  ["Model", "Manager", "State", "Body", "PinJoint", "PhysicalOffsetFrame",
   "Ellipsoid", "Millard2012EquilibriumMuscle", "PrescribedController",
   "InverseKinematicsSolver", "InverseDynamicsSolver"]

/-- Hand-maintained alias list probed on `actuators`. -/
def actuatorsClasses : List String :=
  ["Muscle", "CoordinateActuator", "PointActuator"]

/-- Hand-maintained alias list probed on `tools`. -/
def toolsClasses : List String :=
  ["InverseKinematicsTool", "InverseDynamicsTool", "ForwardTool", "AnalyzeTool"]

/-- The five `if <module>: for cls_name in [...]` blocks, in source order. -/
def aliasTables : List (String × List String) :=
  [("simbody", simbodyClasses), ("common", commonClasses),
   ("simulation", simulationClasses), ("actuators", actuatorsClasses),
   ("tools", toolsClasses)]

/-- The fixed nominal `__all__` list, in source order. -/
def nominalAll : List String :=
  ["simbody", "common", "simulation", "actuators", "analyses", "tools",
   "examplecomponents", "moco", "report",
   "Model", "Manager", "State", "Body",
   "Component", "Property",
   "Vec3", "Rotation", "Transform", "Inertia",
   "PinJoint", "PhysicalOffsetFrame", "Ellipsoid",
   "Millard2012EquilibriumMuscle", "PrescribedController",
   "StepFunction", "ConsoleReporter",
   "Gray", "SimTK_PI",
   "Storage", "Array",
   "InverseKinematicsSolver", "InverseDynamicsSolver",
   "Muscle", "CoordinateActuator", "PointActuator",
   "InverseKinematicsTool", "InverseDynamicsTool",
   "ForwardTool", "AnalyzeTool",
   "__version__"]

/-- The module-name bindings made by the nine `try: from . import m / except
ImportError: m = None` blocks, in source order. -/
def moduleBinds (env : Env) : List (String × PyVal) :=
  (requiredModules ++ optionalModules).map fun m =>
    (m, match env m with
        | some _ => PyVal.module m
        | none => PyVal.pynone)

/-- The flat-namespace bindings contributed by one alias table: nothing when
the submodule failed to import; otherwise one binding per expected class name
actually present among the submodule's attributes (`getattr` probing with
`AttributeError` silently skipped). -/
def aliasBindsFor (env : Env) (m : String) (cl : List String) : List (String × PyVal) :=
  match env m with
  | none => []
  | some attrs => (cl.filter fun c => attrs.contains c).map fun c => (c, PyVal.cls m c)

/-- All flat-namespace alias bindings, in source order. -/
def aliasBinds (env : Env) : List (String × PyVal) :=
  aliasTables.flatMap fun p => aliasBindsFor env p.1 p.2

/-- The sequence of global bindings performed by module initialization, in
execution order: submodule names, then flat aliases, then `__version__`
(defaulting to "0.0.1" when `.version` cannot be imported). -/
def pyGlobals (env : Env) (ver : Option String) : List (String × PyVal) :=
  moduleBinds env ++ aliasBinds env ++ [("__version__", PyVal.str (ver.getD "0.0.1"))]

/-- Lookup in the global namespace: the last binding of a name wins
(`globals()[n] = v` assignment semantics); `none` means the name is unbound
(`globals().get(n)` returns Python `None`, and a bare reference raises
`NameError`). -/
def ggetAux (n : String) (acc : Option PyVal) (g : List (String × PyVal)) : Option PyVal :=
  g.foldl (fun a p => if p.1 == n then some p.2 else a) acc

/-- Lookup of name `n` among the bindings `g`. -/
def gget (g : List (String × PyVal)) (n : String) : Option PyVal := ggetAux n none g

/-- The final `__all__`: the nominal list filtered by
`globals().get(item) is not None` (both unbound names and names bound to the
`None` sentinel are dropped). -/
def pyAll (env : Env) (ver : Option String) : List String :=
  nominalAll.filter fun n =>
    match gget (pyGlobals env ver) n with
    | some PyVal.pynone => false
    | some _ => true
    | none => false

/-- The global module registry (`sys.modules`) after the top of
`pyosim/__init__.py` runs: the import machinery has installed the package
object under its primary name, and line 40 (`sys.modules['opensim'] =
sys.modules[__name__]`) copies that very reference under the alternate name.
The subsequent guarded submodule imports (parameterised by `env`) never touch
these two entries. -/
def registryAfterInit (reg : String → Option Nat) (objId : Nat) (_ : Env) :
    String → Option Nat :=
  let reg1 := fun n => if n = "pyosim" then some objId else reg n
  fun n => if n = "opensim" then reg1 "pyosim" else reg1 n

/-- Whether the geometry-search-path registration call executes: only when the
`Geometry` directory exists and the bare name `ModelVisualizer` is bound in the
flat namespace (an unbound name raises `NameError`, which the surrounding
`try/except NameError: pass` suppresses). -/
def geometryRegistered (env : Env) (ver : Option String) (geomDirExists : Bool) : Bool :=
  geomDirExists &&
    match gget (pyGlobals env ver) "ModelVisualizer" with
    | some _ => true
    | none => false

/-- Outcome of one `stubgen` subprocess run in `generate_stubs_with_stubgen`:
return code zero, nonzero return code (a warning is printed but the module is
still counted as a success), or a raised exception (not counted). -/
inductive RunOutcome where
  | ok
  | warn
  | err
deriving DecidableEq

/-- The fixed module list stubs are generated for. -/
def stubgenModules : List String :=
  ["simbody", "common", "simulation", "actuators", "analyses", "tools"]

/-- The `success_count` accumulated by `generate_stubs_with_stubgen`. -/
def successCount (runs : String → RunOutcome) : Nat :=
  (stubgenModules.filter fun m => runs m != RunOutcome.err).length

/-- The boolean result of `generate_stubs_with_stubgen`: `success_count > 0`. -/
def generateStubsOk (runs : String → RunOutcome) : Bool := successCount runs != 0

/-- The process exit code of `main()` in `generate_stubs.py`: 1 when invoked
with fewer than two argv entries, 1 when mypy cannot be made available, 1 when
no module's stub generation nominally succeeds, and 0 otherwise. -/
def mainExitCode (argcOk mypyOk : Bool) (runs : String → RunOutcome) : Nat :=
  if !argcOk then 1
  else if !mypyOk then 1
  else if generateStubsOk runs then 0
  else 1

/-!
Lemmas: basic facts about the text utilities.
-/

theorem startsWithL_nil (l : Txt) : startsWithL [] l = true := by
  cases l <;> rfl

theorem startsWithL_append_self (p t : Txt) : startsWithL p (p ++ t) = true := by
  induction p with
  | nil => exact startsWithL_nil t
  | cons c cs ih => simp [startsWithL, ih]

theorem startsWithL_length {p l : Txt} (h : startsWithL p l = true) :
    p.length ≤ l.length := by
  induction p generalizing l with
  | nil => simp
  | cons c cs ih =>
    cases l with
    | nil => simp [startsWithL] at h
    | cons d ds =>
      simp only [startsWithL, Bool.and_eq_true] at h
      simpa [List.length_cons] using ih h.2

theorem eq_append_of_startsWithL {p l : Txt} (h : startsWithL p l = true) :
    l = p ++ l.drop p.length := by
  induction p generalizing l with
  | nil => simp
  | cons c cs ih =>
    cases l with
    | nil => simp [startsWithL] at h
    | cons d ds =>
      simp only [startsWithL, Bool.and_eq_true, beq_iff_eq] at h
      obtain ⟨rfl, h2⟩ := h
      simpa using ih h2

theorem startsWithL_of_append {p q l : Txt}
    (h : startsWithL (p ++ q) l = true) : startsWithL p l = true := by
  induction p generalizing l with
  | nil => exact startsWithL_nil l
  | cons c cs ih =>
    cases l with
    | nil => simp [startsWithL] at h
    | cons d ds =>
      simp only [List.cons_append, startsWithL, Bool.and_eq_true] at h ⊢
      exact ⟨h.1, ih h.2⟩

theorem containsSub_of_suffix {p t l : Txt} (hs : t <:+ l)
    (hp : startsWithL p t = true) : containsSub p l = true := by
  induction l with
  | nil =>
    have : t = [] := List.eq_nil_of_suffix_nil hs
    subst this
    simpa [containsSub] using hp
  | cons c cs ih =>
    rcases hs with ⟨u, hu⟩
    cases u with
    | nil =>
      simp only [List.nil_append] at hu
      subst hu
      simp [containsSub, hp]
    | cons a as =>
      simp only [List.cons_append, List.cons.injEq] at hu
      obtain ⟨rfl, hu2⟩ := hu
      have : containsSub p cs = true := ih ⟨as, hu2⟩
      simp [containsSub, this]

theorem suffix_of_drop (n : Nat) (l : Txt) : l.drop n <:+ l :=
  List.drop_suffix n l

theorem suffix_of_dropWhile (q : Char → Bool) (l : Txt) : l.dropWhile q <:+ l :=
  List.dropWhile_suffix q

/-!
Lemmas: the `re.sub` scanning engine.
-/

theorem rwGo_nil (m : Matcher) (fuel : Nat) (prev : Bool) : rwGo m fuel prev [] = [] := by
  cases fuel <;> rfl

theorem rwGo_eq_self {m : Matcher} {s : Txt}
    (h : ∀ p t, t <:+ s → m p t = none) (fuel : Nat) (prev : Bool) :
    rwGo m fuel prev s = s := by
  induction s generalizing fuel prev with
  | nil => exact rwGo_nil m fuel prev
  | cons c cs ih =>
    cases fuel with
    | zero => rfl
    | succ f =>
      have hm : m prev (c :: cs) = none := h prev (c :: cs) (List.suffix_refl _)
      have hrest : ∀ p t, t <:+ cs → m p t = none := fun p t ht =>
        h p t (ht.trans (List.suffix_cons c cs))
      simp [rwGo, hm, ih hrest]

theorem runRw_eq_self {m : Matcher} {s : Txt}
    (h : ∀ p t, t <:+ s → m p t = none) : runRw m s = s :=
  rwGo_eq_self h s.length false

theorem rwGo_word_run {m : Matcher} (hm : ∀ t, m true t = none) :
    ∀ (l : Txt) (fuel : Nat), (∀ c ∈ l, isWordCh c = true) →
      rwGo m fuel true l = l := by
  intro l
  induction l with
  | nil => intro fuel _; exact rwGo_nil m fuel true
  | cons c cs ih =>
    intro fuel hw
    cases fuel with
    | zero => rfl
    | succ f =>
      have hc : isWordCh c = true := hw c (List.mem_cons_self c cs)
      have : rwGo m f (isWordCh c) cs = cs := by
        rw [hc]
        exact ih f (fun d hd => hw d (List.mem_cons_of_mem c hd))
      simp [rwGo, hm (c :: cs), this]

/-!
Lemmas: triggers of the individual matchers — every successful match starts at
(or contains, at a computable suffix) a fixed literal, so a document not
containing that literal is left untouched by the corresponding rule.
-/

theorem selfMatch_some_starts {first rest : Char → Bool} {p : Bool} {l : Txt} {x}
    (h : selfMatch first rest p l = some x) : startsWithL "self".data l = true := by
  unfold selfMatch at h
  split at h
  · assumption
  · exact absurd h (by simp)

theorem selfMatch_prev_true (first rest : Char → Bool) (l : Txt) :
    selfMatch first rest true l = none := by
  unfold selfMatch
  split
  · split
    · simp
    · rfl
  · rfl

theorem dupMatch_some_starts {p : Bool} {l : Txt} {x}
    (h : dupMatch p l = some x) : startsWithL "self".data l = true := by
  unfold dupMatch at h
  split at h
  · exact absurd h (by simp)
  · split at h
    · refine startsWithL_of_append (p := "self".data) (q := [',']) ?_
      assumption
    · exact absurd h (by simp)

theorem defEmptyMatch_some_starts {p : Bool} {l : Txt} {x}
    (h : defEmptyMatch p l = some x) : startsWithL "def ".data l = true := by
  unfold defEmptyMatch at h
  split at h
  · assumption
  · exact absurd h (by simp)

theorem trailMatch_some_starts {p : Bool} {l : Txt} {x}
    (h : trailMatch p l = some x) : startsWithL "def ".data l = true := by
  unfold trailMatch at h
  split at h
  · assumption
  · exact absurd h (by simp)

theorem overloadTail_some_starts {t2 : Txt} {x}
    (h : overloadTail t2 = some x) : startsWithL "def ".data t2 = true := by
  unfold overloadTail at h
  split at h
  · assumption
  · exact absurd h (by simp)

theorem overloadMatch_some_def {p : Bool} {l : Txt} {x}
    (h : overloadMatch p l = some x) :
    ∃ u, u <:+ l ∧ startsWithL "def ".data u = true := by
  unfold overloadMatch at h
  split at h
  · cases ht : overloadTail ((l.drop 9).dropWhile isSpaceCh) with
    | none => rw [ht] at h; exact absurd h (by simp)
    | some y =>
      exact ⟨(l.drop 9).dropWhile isSpaceCh,
        (suffix_of_dropWhile _ _).trans (suffix_of_drop 9 l),
        overloadTail_some_starts ht⟩
  · exact absurd h (by simp)

/-!
Lemmas: each repair rule is the identity on documents missing its trigger
substring.
-/

theorem fix_malformed_eq_self {s : Txt}
    (h : containsSub "self".data s = false) :
    fix_malformed_self_parameters s = s := by
  have key : ∀ (first rest : Char → Bool) (p : Bool) (t : Txt), t <:+ s →
      selfMatch first rest p t = none := by
    intro first rest p t ht
    cases hm : selfMatch first rest p t with
    | none => rfl
    | some x =>
      have := containsSub_of_suffix ht (selfMatch_some_starts hm)
      rw [h] at this
      exact absurd this (by simp)
  unfold fix_malformed_self_parameters
  rw [runRw_eq_self (key isUpperCh isWordCh), runRw_eq_self (key isLowerCh isWordCh),
    runRw_eq_self (key isUpperUndCh isUpperUndDigCh)]

theorem fix_duplicate_eq_self {s : Txt}
    (h : containsSub "self".data s = false) :
    fix_duplicate_self_parameters s = s := by
  refine runRw_eq_self ?_
  intro p t ht
  cases hm : dupMatch p t with
  | none => rfl
  | some x =>
    have := containsSub_of_suffix ht (dupMatch_some_starts hm)
    rw [h] at this
    exact absurd this (by simp)

/-!
Lemmas: `splitNl` / `joinNl` round-trip (Python `'\n'.join(s.split('\n')) == s`).
-/

theorem splitNl_ne_nil (s : Txt) : splitNl s ≠ [] := by
  cases s with
  | nil => simp [splitNl]
  | cons c cs =>
    unfold splitNl
    split
    · simp
    · split <;> simp

theorem joinNl_cons {ls : List Txt} (l : Txt) (h : ls ≠ []) :
    joinNl (l :: ls) = l ++ '\n' :: joinNl ls := by
  cases ls with
  | nil => exact absurd rfl h
  | cons a as => rfl

theorem joinNl_splitNl (s : Txt) : joinNl (splitNl s) = s := by
  induction s with
  | nil => rfl
  | cons c cs ih =>
    unfold splitNl
    split
    · rename_i hc
      subst hc
      rw [joinNl_cons [] (splitNl_ne_nil cs)]
      simp [ih]
    · rename_i hc
      cases hsp : splitNl cs with
      | nil => exact absurd hsp (splitNl_ne_nil cs)
      | cons l ls =>
        rw [hsp] at ih
        cases ls with
        | nil =>
          simp only [joinNl] at ih ⊢
          simp [ih]
        | cons b bs =>
          rw [joinNl_cons (c :: l) (by simp), List.cons_append]
          rw [joinNl_cons l (by simp)] at ih
          simp [ih]

theorem extendTyping_no_start {ls : List Txt}
    (h : ∀ l ∈ ls, startsWithL "from typing import".data l = false) :
    extendTyping ls = ls := by
  induction ls with
  | nil => rfl
  | cons l ls ih =>
    unfold extendTyping
    rw [if_neg (by simp [h l (List.mem_cons_self l ls)])]
    rw [ih (fun l2 h2 => h l2 (List.mem_cons_of_mem l h2))]

theorem extendTyping_split (pre : List Txt) (l : Txt) (post : List Txt)
    (hpre : ∀ l2 ∈ pre, startsWithL "from typing import".data l2 = false)
    (hl : startsWithL "from typing import".data l = true) :
    extendTyping (pre ++ l :: post) =
      pre ++ (if containsSub "Any".data l then l
              else if endsWithL "import".data l then l ++ " Any".data
              else l ++ ", Any".data) :: post := by
  induction pre with
  | nil =>
    rw [List.nil_append, List.nil_append]
    unfold extendTyping
    rw [if_pos hl]
  | cons p pre ih =>
    rw [List.cons_append]
    unfold extendTyping
    rw [if_neg (by simp [hpre p (List.mem_cons_self p pre)])]
    rw [ih (fun l2 h2 => hpre l2 (List.mem_cons_of_mem p h2))]
    rfl

theorem fix_missing_eq_self {s : Txt}
    (h : containsSub "Any".data s = false) :
    fix_missing_type_imports s = s := by
  unfold fix_missing_type_imports
  simp only [h, Bool.false_and, if_neg (by simp : ¬(false = true))]
  exact joinNl_splitNl s

theorem fix_swig_eq_self {s : Txt}
    (h : containsSub "def ".data s = false) :
    fix_common_swig_issues s = s := by
  have keyDefEmpty : ∀ (p : Bool) (t : Txt), t <:+ s → defEmptyMatch p t = none := by
    intro p t ht
    cases hm : defEmptyMatch p t with
    | none => rfl
    | some x =>
      have := containsSub_of_suffix ht (defEmptyMatch_some_starts hm)
      rw [h] at this
      exact absurd this (by simp)
  have keyTrail : ∀ (p : Bool) (t : Txt), t <:+ s → trailMatch p t = none := by
    intro p t ht
    cases hm : trailMatch p t with
    | none => rfl
    | some x =>
      have := containsSub_of_suffix ht (trailMatch_some_starts hm)
      rw [h] at this
      exact absurd this (by simp)
  have keyOv : ∀ (p : Bool) (t : Txt), t <:+ s → overloadMatch p t = none := by
    intro p t ht
    cases hm : overloadMatch p t with
    | none => rfl
    | some x =>
      obtain ⟨u, hu, hstart⟩ := overloadMatch_some_def hm
      have := containsSub_of_suffix (hu.trans ht) hstart
      rw [h] at this
      exact absurd this (by simp)
  unfold fix_common_swig_issues
  rw [runRw_eq_self keyDefEmpty, runRw_eq_self keyOv, runRw_eq_self keyTrail]

/-- Specialisation of `rwGo_eq_self` whose hypothesis is decidable for a
concrete document: no matcher fires on any suffix. -/
theorem runRw_eq_self_tails {m : Matcher} {s : Txt}
    (h : ∀ t ∈ s.tails, ∀ p, m p t = none) (fuel : Nat) (prev : Bool) :
    rwGo m fuel prev s = s :=
  rwGo_eq_self (fun p t ht => h t ((List.mem_tails _ _).mpr ht) p) fuel prev

/-!
Lemmas: the duplicate-collapse rule on runs of `self, ` tokens.
-/

theorem selfCommaRun_length (n : Nat) : (selfCommaRun n).length = 6 * n := by
  induction n with
  | zero => rfl
  | succ k ih =>
    show ("self, ".data ++ selfCommaRun k).length = 6 * (k + 1)
    simp [ih]
    ring

theorem selfCommaRun_x_dropWhile (n : Nat) :
    (selfCommaRun n ++ ['x']).dropWhile isSpaceCh = selfCommaRun n ++ ['x'] := by
  cases n with
  | zero => decide
  | succ k =>
    show List.dropWhile isSpaceCh ('s' :: (("elf, ".data ++ selfCommaRun k) ++ ['x'])) = _
    rw [List.dropWhile_cons_of_neg (by decide)]
    rfl

theorem dupMatch_run (n : Nat) :
    dupMatch false (selfCommaRun (n + 2) ++ ['x']) =
      some ("self, ".data, false, selfCommaRun n ++ ['x']) := by
  show dupMatch false
      ('s' :: 'e' :: 'l' :: 'f' :: ',' :: ' ' ::
        ('s' :: 'e' :: 'l' :: 'f' :: ',' :: ' ' :: (selfCommaRun n ++ ['x']))) = _
  unfold dupMatch
  rw [if_neg (by simp)]
  rw [if_pos (by simp [startsWithL])]
  show (if startsWithL "self,".data
      (List.dropWhile isSpaceCh
        (' ' :: ('s' :: 'e' :: 'l' :: 'f' :: ',' :: ' ' :: (selfCommaRun n ++ ['x'])))) = true
    then _ else _) = _
  rw [List.dropWhile_cons_of_pos (by decide)]
  show (if startsWithL "self,".data
      (List.dropWhile isSpaceCh (selfCommaRun (n + 1) ++ ['x'])) = true then _ else _) = _
  rw [selfCommaRun_x_dropWhile]
  rw [if_pos (by simp [startsWithL])]
  show some ("self, ".data, false,
    List.dropWhile isSpaceCh (' ' :: (selfCommaRun n ++ ['x']))) = _
  rw [List.dropWhile_cons_of_pos (by decide), selfCommaRun_x_dropWhile]

theorem rwGo_dup_run : ∀ (n fuel : Nat), 6 * n + 1 ≤ fuel →
    rwGo dupMatch fuel false (selfCommaRun n ++ ['x']) =
      selfCommaRun ((n + 1) / 2) ++ ['x'] := by
  intro n
  induction n using Nat.strong_induction_on with
  | _ n ih =>
    cases n with
    | zero =>
      intro fuel _
      exact runRw_eq_self_tails (by decide) fuel false
    | succ k =>
      cases k with
      | zero =>
        intro fuel _
        exact runRw_eq_self_tails (by decide) fuel false
      | succ j =>
        intro fuel hf
        cases fuel with
        | zero => omega
        | succ f =>
          show rwGo dupMatch (f + 1) false
            ('s' :: (("elf, ".data ++ selfCommaRun (j + 1)) ++ ['x'])) = _
          rw [rwGo]
          have hm : dupMatch false
              ('s' :: (("elf, ".data ++ selfCommaRun (j + 1)) ++ ['x'])) =
              some ("self, ".data, false, selfCommaRun j ++ ['x']) := dupMatch_run j
          rw [hm]
          show "self, ".data ++ rwGo dupMatch f false (selfCommaRun j ++ ['x']) = _
          rw [ih j (by omega) f (by omega)]
          rw [show (j + 1 + 1 + 1) / 2 = (j + 1) / 2 + 1 from by omega]
          show "self, ".data ++ (selfCommaRun ((j + 1) / 2) ++ ['x']) =
            ("self, ".data ++ selfCommaRun ((j + 1) / 2)) ++ ['x']
          rw [List.append_assoc]

/-!
Lemmas: behaviour of one demangling pass on a single fused identifier
`self<Name>` with `<Name>` a word-character run.
-/

theorem selfMatch_none_of_not_starts {first rest : Char → Bool} {p : Bool} {l : Txt}
    (h : startsWithL "self".data l = false) : selfMatch first rest p l = none := by
  unfold selfMatch
  rw [if_neg (by simp [h])]

theorem startsWithL_self_head_false {d : Char} (tl : Txt) (h : ('s' == d) = false) :
    startsWithL "self".data (d :: tl) = false := by
  show ('s' == d && startsWithL "elf".data tl) = false
  rw [h, Bool.false_and]

theorem ne_s_of_upperUnd {d : Char} (h : isUpperUndCh d = true) : ('s' == d) = false := by
  cases hb : ('s' == d) with
  | false => rfl
  | true =>
    have : d = 's' := (beq_iff_eq.mp hb).symm
    subst this
    exact absurd h (by decide)

theorem not_upper_of_lower {d : Char} (h : isLowerCh d = true) : isUpperCh d = false := by
  cases hb : isUpperCh d with
  | false => rfl
  | true =>
    have h1 : 'a' ≤ d := by
      have := (Bool.and_eq_true _ _).mp h
      exact of_decide_eq_true this.1
    have h2 : d ≤ 'Z' := by
      have := (Bool.and_eq_true _ _).mp hb
      exact of_decide_eq_true this.2
    exact absurd (le_trans h1 h2) (by decide)

/-- When the demangling pattern fires at the very start of `self<Name>`, the
whole identifier is rewritten in place: the greedy group plus the untouched
remainder reproduce `<Name>` exactly. -/
theorem rwGo_selfword_fire (first rest : Char → Bool) (d : Char) (tl : Txt)
    (hw : ∀ c ∈ d :: tl, isWordCh c = true) (hfd : first d = true) (fuel : Nat) :
    rwGo (selfMatch first rest) (fuel + 1) false ("self".data ++ d :: tl) =
      "self, ".data ++ d :: tl := by
  show rwGo (selfMatch first rest) (fuel + 1) false
    ('s' :: 'e' :: 'l' :: 'f' :: d :: tl) = _
  rw [rwGo]
  have hm : selfMatch first rest false ('s' :: 'e' :: 'l' :: 'f' :: d :: tl) =
      some ("self, ".data ++ d :: tl.takeWhile rest, true, tl.dropWhile rest) := by
    unfold selfMatch
    rw [if_pos (by simp [startsWithL])]
    show (if (!false && first d) = true then _ else none) = _
    rw [hfd]
    simp
  rw [hm]
  show ("self, ".data ++ d :: tl.takeWhile rest) ++
      rwGo (selfMatch first rest) fuel true (tl.dropWhile rest) =
    "self, ".data ++ d :: tl
  rw [rwGo_word_run (selfMatch_prev_true first rest) (tl.dropWhile rest) fuel
    (fun c hc => hw c (List.mem_cons_of_mem d ((List.dropWhile_sublist rest).subset hc)))]
  rw [List.append_assoc]
  show "self, ".data ++ (d :: (tl.takeWhile rest ++ tl.dropWhile rest)) = _
  rw [List.takeWhile_append_dropWhile]

/-- When the pattern's first character class rejects `<Name>`'s head, the pass
leaves `self<Name>` unchanged (the inner positions all sit behind word
characters, so no boundary match is possible). -/
theorem rwGo_selfhead_skip (first rest : Char → Bool) (d : Char) (tl : Txt)
    (hw : ∀ c ∈ d :: tl, isWordCh c = true) (hfd : first d = false) (fuel : Nat) :
    rwGo (selfMatch first rest) fuel false ("self".data ++ d :: tl) =
      "self".data ++ d :: tl := by
  cases fuel with
  | zero => rfl
  | succ f =>
    show rwGo (selfMatch first rest) (f + 1) false
      ('s' :: 'e' :: 'l' :: 'f' :: d :: tl) = _
    rw [rwGo]
    have hm : selfMatch first rest false ('s' :: 'e' :: 'l' :: 'f' :: d :: tl) = none := by
      unfold selfMatch
      rw [if_pos (by simp [startsWithL])]
      show (if (!false && first d) = true then _ else none) = _
      rw [hfd]
      simp
    rw [hm]
    show 's' :: rwGo (selfMatch first rest) f true ('e' :: 'l' :: 'f' :: d :: tl) = _
    rw [rwGo_word_run (selfMatch_prev_true first rest) ('e' :: 'l' :: 'f' :: d :: tl) f
      (fun c hc => by
        simp only [List.mem_cons] at hc
        rcases hc with rfl | rfl | rfl | h | hc
        · decide
        · decide
        · decide
        · rw [h]; exact hw d (List.mem_cons_self d tl)
        · exact hw c (List.mem_cons_of_mem d hc))]
    rfl

/-- A pass that cannot fire at the `<Name>` position leaves the already
rewritten text `self, <Name>` unchanged. -/
theorem rwGo_selfcomma_skip (first rest : Char → Bool) (hcomma : first ',' = false)
    (d : Char) (tl : Txt) (hw : ∀ c ∈ d :: tl, isWordCh c = true)
    (hnm : selfMatch first rest false (d :: tl) = none) (fuel : Nat) :
    rwGo (selfMatch first rest) fuel false ("self, ".data ++ d :: tl) =
      "self, ".data ++ d :: tl := by
  cases fuel with
  | zero => rfl
  | succ f1 =>
  show rwGo (selfMatch first rest) (f1 + 1) false
    ('s' :: 'e' :: 'l' :: 'f' :: ',' :: ' ' :: d :: tl) = _
  rw [rwGo]
  have h0 : selfMatch first rest false
      ('s' :: 'e' :: 'l' :: 'f' :: ',' :: ' ' :: d :: tl) = none := by
    unfold selfMatch
    rw [if_pos (by simp [startsWithL])]
    show (if (!false && first ',') = true then _ else none) = _
    rw [hcomma]
    simp
  rw [h0]
  show 's' :: rwGo (selfMatch first rest) f1 true
    ('e' :: 'l' :: 'f' :: ',' :: ' ' :: d :: tl) = _
  cases f1 with
  | zero => rfl
  | succ f2 =>
  rw [rwGo, selfMatch_prev_true]
  show 's' :: 'e' :: rwGo (selfMatch first rest) f2 true
    ('l' :: 'f' :: ',' :: ' ' :: d :: tl) = _
  cases f2 with
  | zero => rfl
  | succ f3 =>
  rw [rwGo, selfMatch_prev_true]
  show 's' :: 'e' :: 'l' :: rwGo (selfMatch first rest) f3 true
    ('f' :: ',' :: ' ' :: d :: tl) = _
  cases f3 with
  | zero => rfl
  | succ f4 =>
  rw [rwGo, selfMatch_prev_true]
  show 's' :: 'e' :: 'l' :: 'f' :: rwGo (selfMatch first rest) f4 true
    (',' :: ' ' :: d :: tl) = _
  cases f4 with
  | zero => rfl
  | succ f5 =>
  rw [rwGo, selfMatch_prev_true]
  show 's' :: 'e' :: 'l' :: 'f' :: ',' :: rwGo (selfMatch first rest) f5 false
    (' ' :: d :: tl) = _
  cases f5 with
  | zero => rfl
  | succ f6 =>
  rw [rwGo, selfMatch_none_of_not_starts (startsWithL_self_head_false _ (by decide))]
  show 's' :: 'e' :: 'l' :: 'f' :: ',' :: ' ' :: rwGo (selfMatch first rest) f6 false
    (d :: tl) = _
  cases f6 with
  | zero => rfl
  | succ f7 =>
  rw [rwGo, hnm]
  show 's' :: 'e' :: 'l' :: 'f' :: ',' :: ' ' :: d ::
    rwGo (selfMatch first rest) f7 (isWordCh d) tl = _
  rw [hw d (List.mem_cons_self d tl)]
  rw [rwGo_word_run (selfMatch_prev_true first rest) tl f7
    (fun c hc => hw c (List.mem_cons_of_mem d hc))]
  rfl

theorem selfMatch_upperUnd_none {l : Txt} (hns : startsSelfUpperUnd l = false) :
    selfMatch isUpperUndCh isUpperUndDigCh false l = none := by
  unfold startsSelfUpperUnd at hns
  by_cases hst : startsWithL "self".data l = true
  · rw [hst, Bool.true_and] at hns
    unfold selfMatch
    rw [if_pos hst]
    cases hl4 : l.drop 4 with
    | nil => rfl
    | cons e tt =>
      rw [hl4] at hns
      show (if (!false && isUpperUndCh e) = true then _ else none) = _
      rw [show isUpperUndCh e = false from hns]
      simp
  · exact selfMatch_none_of_not_starts (by simpa using hst)

/-!
Lemmas: behaviour of the whole pipeline on the declaration documents
`def <name>()` and `def <name>(self)` for an arbitrary identifier `<name>`.
-/

theorem startsWithL_head_false {p0 c : Char} (ps cs : Txt) (h : (p0 == c) = false) :
    startsWithL (p0 :: ps) (c :: cs) = false := by
  show (p0 == c && startsWithL ps cs) = false
  rw [h, Bool.false_and]

theorem mem_of_startsWithL {p t : Txt} (h : startsWithL p t = true) :
    ∀ c ∈ p, c ∈ t := by
  intro c hc
  rw [eq_append_of_startsWithL h]
  exact List.mem_append_left _ hc

theorem upperSub : ∀ c, isUpperCh c = true →
    (isUpperCh c || isLowerCh c || c == '_') = true := by
  intro c h
  rw [h]
  rfl

theorem lowerSub : ∀ c, isLowerCh c = true →
    (isUpperCh c || isLowerCh c || c == '_') = true := by
  intro c h
  simp [h]

theorem upperUndSub : ∀ c, isUpperUndCh c = true →
    (isUpperCh c || isLowerCh c || c == '_') = true := by
  intro c h
  rcases (Bool.or_eq_true _ _).mp h with h1 | h1 <;> simp [h1]

theorem selfMatch_none_of_no_fuse {first rest : Char → Bool} {l : Txt}
    (hsub : ∀ c, first c = true → (isUpperCh c || isLowerCh c || c == '_') = true)
    (hns : startsSelfFuse l = false) :
    selfMatch first rest false l = none := by
  unfold startsSelfFuse at hns
  by_cases hst : startsWithL "self".data l = true
  · rw [hst, Bool.true_and] at hns
    unfold selfMatch
    rw [if_pos hst]
    cases hl4 : l.drop 4 with
    | nil => rfl
    | cons e tt =>
      rw [hl4] at hns
      show (if (!false && first e) = true then _ else none) = _
      have hfe : first e = false := by
        cases hb : first e with
        | false => rfl
        | true =>
          have hns2 : (isUpperCh e || isLowerCh e || e == '_') = false := hns
          rw [hsub e hb] at hns2
          cases hns2
      rw [hfe]
      simp
  · exact selfMatch_none_of_not_starts (by simpa using hst)

theorem rwGo_word_parenself (first rest : Char → Bool) (hparen : first ')' = false) :
    ∀ (w : Txt) (fuel : Nat), (∀ c ∈ w, isWordCh c = true) →
      rwGo (selfMatch first rest) fuel true (w ++ "(self)".data) =
        w ++ "(self)".data := by
  intro w
  induction w with
  | nil =>
    intro fuel _
    show rwGo (selfMatch first rest) fuel true
      ('(' :: 's' :: 'e' :: 'l' :: 'f' :: ')' :: []) = _
    cases fuel with
    | zero => rfl
    | succ f1 =>
    rw [rwGo, selfMatch_prev_true]
    show '(' :: rwGo (selfMatch first rest) f1 false
      ('s' :: 'e' :: 'l' :: 'f' :: ')' :: []) = _
    cases f1 with
    | zero => rfl
    | succ f2 =>
    have hm : selfMatch first rest false ('s' :: 'e' :: 'l' :: 'f' :: ')' :: []) = none := by
      unfold selfMatch
      rw [if_pos (by simp [startsWithL])]
      show (if (!false && first ')') = true then _ else none) = _
      rw [hparen]
      simp
    rw [rwGo, hm]
    show '(' :: 's' :: rwGo (selfMatch first rest) f2 true ('e' :: 'l' :: 'f' :: ')' :: []) = _
    cases f2 with
    | zero => rfl
    | succ f3 =>
    rw [rwGo, selfMatch_prev_true]
    show '(' :: 's' :: 'e' :: rwGo (selfMatch first rest) f3 true ('l' :: 'f' :: ')' :: []) = _
    cases f3 with
    | zero => rfl
    | succ f4 =>
    rw [rwGo, selfMatch_prev_true]
    show '(' :: 's' :: 'e' :: 'l' :: rwGo (selfMatch first rest) f4 true ('f' :: ')' :: []) = _
    cases f4 with
    | zero => rfl
    | succ f5 =>
    rw [rwGo, selfMatch_prev_true]
    show '(' :: 's' :: 'e' :: 'l' :: 'f' :: rwGo (selfMatch first rest) f5 true (')' :: []) = _
    cases f5 with
    | zero => rfl
    | succ f6 =>
    rw [rwGo, selfMatch_prev_true]
    show '(' :: 's' :: 'e' :: 'l' :: 'f' :: ')' :: rwGo (selfMatch first rest) f6 false [] = _
    rw [rwGo_nil]
    rfl
  | cons c w' ih =>
    intro fuel hw
    cases fuel with
    | zero => rfl
    | succ f =>
      rw [List.cons_append, rwGo, selfMatch_prev_true]
      show c :: rwGo (selfMatch first rest) f (isWordCh c) (w' ++ "(self)".data) = _
      rw [hw c (List.mem_cons_self c w')]
      rw [ih f (fun d hd => hw d (List.mem_cons_of_mem c hd))]

theorem rwGo_word_parenclose (first rest : Char → Bool) :
    ∀ (w : Txt) (fuel : Nat), (∀ c ∈ w, isWordCh c = true) →
      rwGo (selfMatch first rest) fuel true (w ++ "()".data) = w ++ "()".data := by
  intro w
  induction w with
  | nil =>
    intro fuel _
    show rwGo (selfMatch first rest) fuel true ('(' :: ')' :: []) = _
    cases fuel with
    | zero => rfl
    | succ f1 =>
    rw [rwGo, selfMatch_prev_true]
    show '(' :: rwGo (selfMatch first rest) f1 false (')' :: []) = _
    cases f1 with
    | zero => rfl
    | succ f2 =>
    rw [rwGo, selfMatch_none_of_not_starts (startsWithL_head_false _ _ (by decide))]
    show '(' :: ')' :: rwGo (selfMatch first rest) f2 false [] = _
    rw [rwGo_nil]
    rfl
  | cons c w' ih =>
    intro fuel hw
    cases fuel with
    | zero => rfl
    | succ f =>
      rw [List.cons_append, rwGo, selfMatch_prev_true]
      show c :: rwGo (selfMatch first rest) f (isWordCh c) (w' ++ "()".data) = _
      rw [hw c (List.mem_cons_self c w')]
      rw [ih f (fun d hd => hw d (List.mem_cons_of_mem c hd))]

theorem rwGo_defLead (first rest : Char → Bool) (t : Txt)
    (ht : ∀ fuel, rwGo (selfMatch first rest) fuel false t = t) :
    ∀ fuel, rwGo (selfMatch first rest) fuel false ("def ".data ++ t) =
      "def ".data ++ t := by
  intro fuel
  cases fuel with
  | zero => rfl
  | succ f1 =>
  show rwGo (selfMatch first rest) (f1 + 1) false ('d' :: 'e' :: 'f' :: ' ' :: t) = _
  rw [rwGo, selfMatch_none_of_not_starts (startsWithL_head_false _ _ (by decide))]
  show 'd' :: rwGo (selfMatch first rest) f1 true ('e' :: 'f' :: ' ' :: t) = _
  cases f1 with
  | zero => rfl
  | succ f2 =>
  rw [rwGo, selfMatch_prev_true]
  show 'd' :: 'e' :: rwGo (selfMatch first rest) f2 true ('f' :: ' ' :: t) = _
  cases f2 with
  | zero => rfl
  | succ f3 =>
  rw [rwGo, selfMatch_prev_true]
  show 'd' :: 'e' :: 'f' :: rwGo (selfMatch first rest) f3 true (' ' :: t) = _
  cases f3 with
  | zero => rfl
  | succ f4 =>
  rw [rwGo, selfMatch_prev_true]
  show 'd' :: 'e' :: 'f' :: ' ' :: rwGo (selfMatch first rest) f4 false t = _
  rw [ht f4]
  rfl

theorem rwGo_name_parenself (first rest : Char → Bool) (hparen : first ')' = false)
    (hsub : ∀ c, first c = true → (isUpperCh c || isLowerCh c || c == '_') = true)
    (n0 : Char) (nr : Txt) (hw : ∀ c ∈ n0 :: nr, isWordCh c = true)
    (hns : startsSelfFuse ((n0 :: nr) ++ "(self)".data) = false) :
    ∀ fuel, rwGo (selfMatch first rest) fuel false ((n0 :: nr) ++ "(self)".data) =
      (n0 :: nr) ++ "(self)".data := by
  intro fuel
  cases fuel with
  | zero => rfl
  | succ f =>
    rw [List.cons_append, rwGo,
      selfMatch_none_of_no_fuse hsub (by rwa [List.cons_append] at hns)]
    show n0 :: rwGo (selfMatch first rest) f (isWordCh n0) (nr ++ "(self)".data) = _
    rw [hw n0 (List.mem_cons_self n0 nr)]
    rw [rwGo_word_parenself first rest hparen nr f
      (fun d hd => hw d (List.mem_cons_of_mem n0 hd))]

theorem rwGo_name_parenclose (first rest : Char → Bool)
    (hsub : ∀ c, first c = true → (isUpperCh c || isLowerCh c || c == '_') = true)
    (n0 : Char) (nr : Txt) (hw : ∀ c ∈ n0 :: nr, isWordCh c = true)
    (hns : startsSelfFuse ((n0 :: nr) ++ "()".data) = false) :
    ∀ fuel, rwGo (selfMatch first rest) fuel false ((n0 :: nr) ++ "()".data) =
      (n0 :: nr) ++ "()".data := by
  intro fuel
  cases fuel with
  | zero => rfl
  | succ f =>
    rw [List.cons_append, rwGo,
      selfMatch_none_of_no_fuse hsub (by rwa [List.cons_append] at hns)]
    show n0 :: rwGo (selfMatch first rest) f (isWordCh n0) (nr ++ "()".data) = _
    rw [hw n0 (List.mem_cons_self n0 nr)]
    rw [rwGo_word_parenclose first rest nr f
      (fun d hd => hw d (List.mem_cons_of_mem n0 hd))]

/-- A character that is not a word character and occurs neither in `def ` nor
in the tail is absent from the whole declaration document. -/
theorem doc_char_free (name : Txt) (hw : ∀ c ∈ name, isWordCh c = true)
    (tail : Txt) (x : Char) (hxw : isWordCh x = false)
    (hpre : x ∉ "def ".data) (htail : x ∉ tail) :
    ∀ c ∈ "def ".data ++ (name ++ tail), (c == x) = false := by
  intro c hc
  cases hb : c == x with
  | false => rfl
  | true =>
    have hcx : c = x := beq_iff_eq.mp hb
    subst hcx
    rcases List.mem_append.mp hc with h | h
    · exact absurd h hpre
    · rcases List.mem_append.mp h with h | h
      · rw [hw c h] at hxw
        cases hxw
      · exact absurd h htail

theorem dupMatch_some_starts_comma {p : Bool} {l : Txt} {x}
    (h : dupMatch p l = some x) : startsWithL "self,".data l = true := by
  unfold dupMatch at h
  split at h
  · exact absurd h (by simp)
  · split at h
    · assumption
    · exact absurd h (by simp)

theorem fix_duplicate_eq_self_of_no_comma {s : Txt}
    (h : ∀ c ∈ s, (c == ',') = false) :
    fix_duplicate_self_parameters s = s := by
  refine runRw_eq_self ?_
  intro p t ht
  cases hm : dupMatch p t with
  | none => rfl
  | some x =>
    have hst := dupMatch_some_starts_comma hm
    have hmem : ',' ∈ t := mem_of_startsWithL hst ',' (by decide)
    have := h ',' (ht.mem hmem)
    simp at this

theorem runRw_overload_eq_self_of_no_at {s : Txt}
    (h : ∀ c ∈ s, (c == '@') = false) :
    runRw overloadMatch s = s := by
  refine runRw_eq_self ?_
  intro p t ht
  cases hm : overloadMatch p t with
  | none => rfl
  | some x =>
    have hst : startsWithL "@overload".data t = true := by
      unfold overloadMatch at hm
      split at hm
      · assumption
      · exact absurd hm (by simp)
    have hmem : '@' ∈ t := mem_of_startsWithL hst '@' (by decide)
    have := h '@' (ht.mem hmem)
    simp at this

theorem takeWhile_word_append (name : Txt) (hw : ∀ c ∈ name, isWordCh c = true)
    (c0 : Char) (hc0 : isWordCh c0 = false) (r : Txt) :
    (name ++ c0 :: r).takeWhile isWordCh = name ∧
    (name ++ c0 :: r).dropWhile isWordCh = c0 :: r := by
  induction name with
  | nil =>
    constructor
    · rw [List.nil_append, List.takeWhile_cons_of_neg (by simp [hc0])]
    · rw [List.nil_append, List.dropWhile_cons_of_neg (by simp [hc0])]
  | cons a as ih =>
    have ha := hw a (List.mem_cons_self a as)
    have ihr := ih (fun d hd => hw d (List.mem_cons_of_mem a hd))
    constructor
    · rw [List.cons_append, List.takeWhile_cons_of_pos (by simp [ha]), ihr.1]
    · rw [List.cons_append, List.dropWhile_cons_of_pos (by simp [ha]), ihr.2]

theorem defEmptyMatch_none_of_not_starts {p : Bool} {l : Txt}
    (h : startsWithL "def ".data l = false) : defEmptyMatch p l = none := by
  unfold defEmptyMatch
  rw [if_neg (by simp [h])]

theorem trailMatch_none_of_not_starts {p : Bool} {l : Txt}
    (h : startsWithL "def ".data l = false) : trailMatch p l = none := by
  unfold trailMatch
  rw [if_neg (by simp [h])]

theorem defEmptyMatch_at_defself (n0 : Char) (nr : Txt)
    (hw : ∀ c ∈ n0 :: nr, isWordCh c = true) (p : Bool) :
    defEmptyMatch p ('d' :: 'e' :: 'f' :: ' ' :: ((n0 :: nr) ++ "(self)".data)) = none := by
  have htw := takeWhile_word_append (n0 :: nr) hw '(' (by decide) "self)".data
  unfold defEmptyMatch
  rw [if_pos (by simp [startsWithL])]
  rw [show List.drop 4 ('d' :: 'e' :: 'f' :: ' ' :: ((n0 :: nr) ++ "(self)".data)) =
    (n0 :: nr) ++ '(' :: "self)".data from rfl]
  rw [htw.1, htw.2]
  rw [if_neg (by simp)]
  rw [if_neg (by decide)]

theorem trailMatch_at_defself (n0 : Char) (nr : Txt)
    (hw : ∀ c ∈ n0 :: nr, isWordCh c = true) (p : Bool) :
    trailMatch p ('d' :: 'e' :: 'f' :: ' ' :: ((n0 :: nr) ++ "(self)".data)) = none := by
  have htw := takeWhile_word_append (n0 :: nr) hw '(' (by decide) "self)".data
  unfold trailMatch
  rw [if_pos (by simp [startsWithL])]
  rw [show List.drop 4 ('d' :: 'e' :: 'f' :: ' ' :: ((n0 :: nr) ++ "(self)".data)) =
    (n0 :: nr) ++ '(' :: "self)".data from rfl]
  rw [htw.1, htw.2]
  rw [if_neg (by simp)]
  rfl

theorem no_space_suffix_tail {n0 : Char} {nr : Txt}
    (hw : ∀ c ∈ n0 :: nr, isWordCh c = true) {t : Txt}
    (ht : t <:+ (n0 :: nr) ++ "(self)".data)
    (hst : startsWithL "def ".data t = true) : False := by
  have hsp : ' ' ∈ t := mem_of_startsWithL hst ' ' (by decide)
  have hmem := ht.mem hsp
  rcases List.mem_append.mp hmem with h | h
  · have := hw ' ' h
    exact absurd this (by decide)
  · exact absurd h (by decide)

theorem defEmptyMatch_none_on_defself (n0 : Char) (nr : Txt)
    (hw : ∀ c ∈ n0 :: nr, isWordCh c = true) :
    ∀ (p : Bool) (t : Txt), t <:+ ("def ".data ++ ((n0 :: nr) ++ "(self)".data)) →
      defEmptyMatch p t = none := by
  intro p t ht
  rw [show "def ".data ++ ((n0 :: nr) ++ "(self)".data) =
    'd' :: 'e' :: 'f' :: ' ' :: ((n0 :: nr) ++ "(self)".data) from rfl] at ht
  rcases List.suffix_cons_iff.mp ht with rfl | ht
  · exact defEmptyMatch_at_defself n0 nr hw p
  rcases List.suffix_cons_iff.mp ht with rfl | ht
  · exact defEmptyMatch_none_of_not_starts (startsWithL_head_false _ _ (by decide))
  rcases List.suffix_cons_iff.mp ht with rfl | ht
  · exact defEmptyMatch_none_of_not_starts (startsWithL_head_false _ _ (by decide))
  rcases List.suffix_cons_iff.mp ht with rfl | ht
  · exact defEmptyMatch_none_of_not_starts (startsWithL_head_false _ _ (by decide))
  cases hst : startsWithL "def ".data t with
  | false => exact defEmptyMatch_none_of_not_starts hst
  | true => exact absurd (no_space_suffix_tail hw ht hst) (by simp)

theorem trailMatch_none_on_defself (n0 : Char) (nr : Txt)
    (hw : ∀ c ∈ n0 :: nr, isWordCh c = true) :
    ∀ (p : Bool) (t : Txt), t <:+ ("def ".data ++ ((n0 :: nr) ++ "(self)".data)) →
      trailMatch p t = none := by
  intro p t ht
  rw [show "def ".data ++ ((n0 :: nr) ++ "(self)".data) =
    'd' :: 'e' :: 'f' :: ' ' :: ((n0 :: nr) ++ "(self)".data) from rfl] at ht
  rcases List.suffix_cons_iff.mp ht with rfl | ht
  · exact trailMatch_at_defself n0 nr hw p
  rcases List.suffix_cons_iff.mp ht with rfl | ht
  · exact trailMatch_none_of_not_starts (startsWithL_head_false _ _ (by decide))
  rcases List.suffix_cons_iff.mp ht with rfl | ht
  · exact trailMatch_none_of_not_starts (startsWithL_head_false _ _ (by decide))
  rcases List.suffix_cons_iff.mp ht with rfl | ht
  · exact trailMatch_none_of_not_starts (startsWithL_head_false _ _ (by decide))
  cases hst : startsWithL "def ".data t with
  | false => exact trailMatch_none_of_not_starts hst
  | true => exact absurd (no_space_suffix_tail hw ht hst) (by simp)

/-- The overload and trailing-comma passes leave `def <name>(self)` unchanged. -/
theorem swig_tail_def_self (n0 : Char) (nr : Txt)
    (hw : ∀ c ∈ n0 :: nr, isWordCh c = true) :
    runRw trailMatch (runRw overloadMatch
        ("def ".data ++ ((n0 :: nr) ++ "(self)".data))) =
      "def ".data ++ ((n0 :: nr) ++ "(self)".data) := by
  rw [runRw_overload_eq_self_of_no_at
    (doc_char_free (n0 :: nr) hw "(self)".data '@' (by decide) (by decide) (by decide))]
  exact runRw_eq_self (fun p t ht => trailMatch_none_on_defself n0 nr hw p t ht)

/-- The empty-parameter pass rewrites the whole document `def <name>()` to
`def <name>(self)` in one match. -/
theorem rwGo_defempty_fire (n0 : Char) (nr : Txt)
    (hw : ∀ c ∈ n0 :: nr, isWordCh c = true) (fuel : Nat) :
    rwGo defEmptyMatch (fuel + 1) false ("def ".data ++ ((n0 :: nr) ++ "()".data)) =
      "def ".data ++ ((n0 :: nr) ++ "(self)".data) := by
  have htw := takeWhile_word_append (n0 :: nr) hw '(' (by decide) ")".data
  show rwGo defEmptyMatch (fuel + 1) false
    ('d' :: 'e' :: 'f' :: ' ' :: ((n0 :: nr) ++ "()".data)) = _
  rw [rwGo]
  have hm : defEmptyMatch false ('d' :: 'e' :: 'f' :: ' ' :: ((n0 :: nr) ++ "()".data)) =
      some ("def ".data ++ (n0 :: nr) ++ "(self)".data, false, []) := by
    unfold defEmptyMatch
    rw [if_pos (by simp [startsWithL])]
    rw [show List.drop 4 ('d' :: 'e' :: 'f' :: ' ' :: ((n0 :: nr) ++ "()".data)) =
      (n0 :: nr) ++ '(' :: ")".data from rfl]
    rw [htw.1, htw.2]
    rw [if_neg (by simp)]
    rw [if_pos (by decide)]
    rfl
  rw [hm]
  show ("def ".data ++ (n0 :: nr) ++ "(self)".data) ++
    rwGo defEmptyMatch fuel false [] = _
  rw [rwGo_nil, List.append_nil, List.append_assoc]

/-!
Lemmas: lookup in the modelled global namespace.
-/

theorem ggetAux_nil (n : String) (acc : Option PyVal) : ggetAux n acc [] = acc := rfl

theorem ggetAux_cons (n : String) (acc : Option PyVal) (p : String × PyVal)
    (g : List (String × PyVal)) :
    ggetAux n acc (p :: g) = ggetAux n (if p.1 == n then some p.2 else acc) g := rfl

theorem ggetAux_append (n : String) (acc : Option PyVal) (a b : List (String × PyVal)) :
    ggetAux n acc (a ++ b) = ggetAux n (ggetAux n acc a) b := by
  unfold ggetAux
  exact List.foldl_append _ _ a b

theorem ggetAux_of_not_mem {n : String} {g : List (String × PyVal)}
    (h : ∀ p ∈ g, (p.1 == n) = false) (acc : Option PyVal) :
    ggetAux n acc g = acc := by
  induction g generalizing acc with
  | nil => rfl
  | cons p g ih =>
    rw [ggetAux_cons, h p (List.mem_cons_self p g)]
    exact ih (fun q hq => h q (List.mem_cons_of_mem p hq)) acc

theorem ggetAux_some_origin {n : String} {g : List (String × PyVal)}
    {acc r : Option PyVal} (h : ggetAux n acc g = r) :
    (∃ p ∈ g, p.1 = n ∧ r = some p.2) ∨ r = acc := by
  induction g generalizing acc with
  | nil => exact Or.inr h.symm
  | cons p g ih =>
    rw [ggetAux_cons] at h
    rcases ih h with ⟨q, hq, hqn, hqr⟩ | hr
    · exact Or.inl ⟨q, List.mem_cons_of_mem p hq, hqn, hqr⟩
    · by_cases hp : (p.1 == n) = true
      · rw [if_pos hp] at hr
        exact Or.inl ⟨p, List.mem_cons_self p g, beq_iff_eq.mp hp, hr⟩
      · rw [if_neg hp] at hr
        exact Or.inr hr

theorem ggetAux_map_nodup {names : List String} {f : String → PyVal} {m : String}
    (acc : Option PyVal) (hm : m ∈ names) (hnd : names.Nodup) :
    ggetAux m acc (names.map fun x => (x, f x)) = some (f m) := by
  induction names generalizing acc with
  | nil => cases hm
  | cons x rest ih =>
    rw [List.map_cons, ggetAux_cons]
    rcases List.mem_cons.mp hm with rfl | hmr
    · rw [if_pos (by simp)]
      refine ggetAux_of_not_mem ?_ _
      intro p hp
      rcases List.mem_map.mp hp with ⟨y, hy, rfl⟩
      have : y ≠ m := fun hcontra => (List.nodup_cons.mp hnd).1 (hcontra ▸ hy)
      simpa using this
    · exact ih _ hmr (List.nodup_cons.mp hnd).2

theorem mem_moduleBinds {env : Env} {p : String × PyVal} (h : p ∈ moduleBinds env) :
    p.1 ∈ requiredModules ++ optionalModules ∧
      (p.2 = PyVal.module p.1 ∨ p.2 = PyVal.pynone) := by
  unfold moduleBinds at h
  rcases List.mem_map.mp h with ⟨m, hm, rfl⟩
  refine ⟨hm, ?_⟩
  cases env m <;> simp

theorem mem_aliasBinds {env : Env} {p : String × PyVal} (h : p ∈ aliasBinds env) :
    ∃ mc ∈ aliasTables, ∃ attrs, env mc.1 = some attrs ∧ p.1 ∈ mc.2 ∧
      attrs.contains p.1 = true ∧ p.2 = PyVal.cls mc.1 p.1 := by
  unfold aliasBinds at h
  rcases List.mem_flatMap.mp h with ⟨q, hq, hp⟩
  unfold aliasBindsFor at hp
  cases he : env q.1 with
  | none => rw [he] at hp; cases hp
  | some attrs =>
    rw [he] at hp
    rcases List.mem_map.mp hp with ⟨c, hc, rfl⟩
    have hcf := List.mem_filter.mp hc
    exact ⟨q, hq, attrs, he, hcf.1, hcf.2, rfl⟩

theorem gget_pyGlobals_split (env : Env) (ver : Option String) (n : String) :
    gget (pyGlobals env ver) n =
      ggetAux n (ggetAux n (ggetAux n none (moduleBinds env)) (aliasBinds env))
        [("__version__", PyVal.str (ver.getD "0.0.1"))] := by
  unfold gget pyGlobals
  rw [ggetAux_append, ggetAux_append]

/-- Concrete disjointness facts about the hand-maintained tables: no expected
class name collides with a submodule name, with `__version__`, or with another
table's class names. -/
theorem tables_disjoint : ∀ mc ∈ aliasTables, ∀ c ∈ mc.2,
    c ∉ requiredModules ++ optionalModules ∧ ¬(c = "__version__") ∧
    ∀ mc2 ∈ aliasTables, mc2.1 ≠ mc.1 → c ∉ mc2.2 := by decide

/-- Every alias table belongs to a known submodule. -/
theorem tables_modules : ∀ mc ∈ aliasTables,
    mc.1 ∈ requiredModules ++ optionalModules := by decide

/-- Submodule names never collide with `__version__` or with class names. -/
theorem modules_facts : ∀ m ∈ requiredModules ++ optionalModules,
    ¬(m = "__version__") ∧ ∀ mc ∈ aliasTables, m ∉ mc.2 := by decide

/-- A name that is no submodule, no expected class of an available submodule,
and not `__version__`, is unbound after initialization. -/
theorem gget_none_of_unbound (env : Env) (ver : Option String) {n : String}
    (h1 : n ∉ requiredModules ++ optionalModules)
    (h2 : ∀ mc ∈ aliasTables, (env mc.1).isSome = true → n ∉ mc.2)
    (h3 : ¬(n = "__version__")) :
    gget (pyGlobals env ver) n = none := by
  rw [gget_pyGlobals_split]
  rw [ggetAux_of_not_mem (g := moduleBinds env) ?hmod none]
  rw [ggetAux_of_not_mem (g := aliasBinds env) ?hal none]
  case hmod =>
    intro p hp
    have hmem := (mem_moduleBinds hp).1
    have : p.1 ≠ n := fun hc => h1 (hc ▸ hmem)
    simpa using this
  case hal =>
    intro p hp
    rcases mem_aliasBinds hp with ⟨mc, hmc, attrs, he, hcl, _, _⟩
    have : p.1 ≠ n := by
      intro hc
      exact h2 mc hmc (by rw [he]; rfl) (hc ▸ hcl)
    simpa using this
  rw [ggetAux_cons, ggetAux_nil]
  rw [if_neg (by simpa using fun hc => h3 hc.symm)]

/-!
Claim theorems.
-/

/-- C1: after package initialization, the global module registry resolves the
alternate name `opensim` and the primary name `pyosim` to the identical loaded
object (the package object installed under the primary name), for every prior
registry state and every import environment, including environments where any
or all sub-namespace imports fail. -/
theorem claim_C1 (reg : String → Option Nat) (objId : Nat) (env : Env) :
    registryAfterInit reg objId env "opensim" = registryAfterInit reg objId env "pyosim" ∧
    registryAfterInit reg objId env "pyosim" = some objId := by
  constructor <;> simp [registryAfterInit]

/-- C3 counterexample: the repair pipeline is not idempotent.  On the document
`self, self, self, x` the first pass collapses only one adjacent pair, leaving
`self, self, x`, and the second pass collapses the remaining pair, so the
second pass is not byte-identical to the first pass's output. -/
theorem claim_C3_counterexample :
    post_process_stub_text "self, self, self, x".data = "self, self, x".data ∧
    post_process_stub_text (post_process_stub_text "self, self, self, x".data) =
      "self, x".data ∧
    post_process_stub_text (post_process_stub_text "self, self, self, x".data) ≠
      post_process_stub_text "self, self, self, x".data := by
  refine ⟨by decide, by decide, by decide⟩

/-- C3 amended: the pipeline is idempotent on documents free of all trigger
substrings (where it is the identity), and more generally applying it twice
is byte-identical to applying it once exactly when each of the four repair
steps individually leaves the once-repaired text unchanged; the demangling,
collapse, import and SWIG steps can each fire again on a first pass's output,
so unconditional idempotence fails. -/
theorem claim_C3_amended : ∀ s : Txt,
    (containsSub "self".data s = false → containsSub "Any".data s = false →
      containsSub "def ".data s = false →
      post_process_stub_text s = s ∧
      post_process_stub_text (post_process_stub_text s) = post_process_stub_text s) ∧
    (fix_malformed_self_parameters (post_process_stub_text s) = post_process_stub_text s →
      fix_duplicate_self_parameters (post_process_stub_text s) = post_process_stub_text s →
      fix_missing_type_imports (post_process_stub_text s) = post_process_stub_text s →
      fix_common_swig_issues (post_process_stub_text s) = post_process_stub_text s →
      post_process_stub_text (post_process_stub_text s) = post_process_stub_text s) := by
  intro s
  constructor
  · intro h1 h2 h3
    have hid : post_process_stub_text s = s := by
      unfold post_process_stub_text
      rw [fix_malformed_eq_self h1, fix_duplicate_eq_self h1,
        fix_missing_eq_self h2, fix_swig_eq_self h3]
    exact ⟨hid, by rw [hid, hid]⟩
  · intro h1 h2 h3 h4
    show fix_common_swig_issues
        (fix_missing_type_imports
          (fix_duplicate_self_parameters
            (fix_malformed_self_parameters (post_process_stub_text s)))) =
      post_process_stub_text s
    rw [h1, h2, h3, h4]

/-- C5: evaluation of the trailing-comma repair at the inputs that decide the
claim.  `def f(a,)` (comma directly before the parenthesis) is matched by the
rule's pattern but left unchanged, because the replacement only deletes the
exact three-character sequence comma-space-parenthesis; `def f(a, )` is
repaired; a document with no trailing comma is unchanged. -/
theorem claim_C5_code_behavior :
    fix_common_swig_issues "def f(a,)".data = "def f(a,)".data ∧
    post_process_stub_text "def f(a,)".data = "def f(a,)".data ∧
    fix_common_swig_issues "def f(a, )".data = "def f(a)".data ∧
    post_process_stub_text "def f(a, )".data = "def f(a)".data ∧
    fix_common_swig_issues "def f(a)".data = "def f(a)".data := by
  refine ⟨by decide, by decide, by decide, by decide, by decide⟩

/-- C7 counterexample: after the duplicate-collapse step an adjacent repeated
`self,` token sequence can remain.  A run of three `self,` tokens is reduced
to two in a single pass, and the output still contains `self, self, `. -/
theorem claim_C7_counterexample :
    fix_duplicate_self_parameters "self, self, self, x".data = "self, self, x".data ∧
    containsSub "self, self, ".data "self, self, x".data = true := by
  refine ⟨by decide, by decide⟩

/-- C7 amended: the duplicate-collapse pass collapses adjacent `self,` pairs
left to right, non-overlapping: a run of `n` adjacent `self, ` tokens becomes
exactly `⌈n/2⌉` tokens in one pass.  A doubled token therefore becomes single,
but a run of three or more leaves an adjacent repeat after one pass. -/
theorem claim_C7_amended (n : Nat) :
    fix_duplicate_self_parameters (selfCommaRun n ++ ['x']) =
      selfCommaRun ((n + 1) / 2) ++ ['x'] := by
  unfold fix_duplicate_self_parameters runRw
  refine rwGo_dup_run n _ ?_
  simp [selfCommaRun_length]

/-- C9 counterexample: the claim's second half fails under its universal
quantification over documents: `def f(self)\ndef g()` already contains
`def f(self)`, yet the zero-parameter rule (and hence the pipeline) changes
the document, rewriting the other declaration `def g()`. -/
theorem claim_C9_counterexample :
    containsSub "def f(self)".data "def f(self)\ndef g()".data = true ∧
    fix_common_swig_issues "def f(self)\ndef g()".data =
      "def f(self)\ndef g(self)".data ∧
    post_process_stub_text "def f(self)\ndef g()".data =
      "def f(self)\ndef g(self)".data ∧
    "def f(self)\ndef g(self)".data ≠ "def f(self)\ndef g()".data := by
  refine ⟨by decide, by decide, by decide, by decide⟩

/-- C9 amended: for every identifier `<name>` (a nonempty word-character run
that does not begin with a fused `self` prefix and does not bring the marker
`Any` into the document), the repair pipeline rewrites the declaration
document `def <name>()` to `def <name>(self)`, and the declaration document
`def <name>(self)` is left unchanged.  A document containing `def <name>(self)`
alongside other zero-parameter declarations is still changed by the rule (see
the counterexample), so the original per-document quantification fails. -/
theorem claim_C9_amended (name : Txt) (hne : name ≠ [])
    (hw : ∀ c ∈ name, isWordCh c = true)
    (hfuse1 : startsSelfFuse (name ++ "()".data) = false)
    (hfuse2 : startsSelfFuse (name ++ "(self)".data) = false)
    (hAny1 : containsSub "Any".data ("def ".data ++ (name ++ "()".data)) = false)
    (hAny2 : containsSub "Any".data ("def ".data ++ (name ++ "(self)".data)) = false) :
    post_process_stub_text ("def ".data ++ (name ++ "()".data)) =
      "def ".data ++ (name ++ "(self)".data) ∧
    post_process_stub_text ("def ".data ++ (name ++ "(self)".data)) =
      "def ".data ++ (name ++ "(self)".data) := by
  obtain ⟨n0, nr, rfl⟩ : ∃ n0 nr, name = n0 :: nr := by
    cases name with
    | nil => exact absurd rfl hne
    | cons a b => exact ⟨a, b, rfl⟩
  have hmal1 : fix_malformed_self_parameters
      ("def ".data ++ ((n0 :: nr) ++ "()".data)) =
      "def ".data ++ ((n0 :: nr) ++ "()".data) := by
    unfold fix_malformed_self_parameters runRw
    rw [rwGo_defLead isUpperCh isWordCh _
        (rwGo_name_parenclose isUpperCh isWordCh upperSub n0 nr hw hfuse1),
      rwGo_defLead isLowerCh isWordCh _
        (rwGo_name_parenclose isLowerCh isWordCh lowerSub n0 nr hw hfuse1),
      rwGo_defLead isUpperUndCh isUpperUndDigCh _
        (rwGo_name_parenclose isUpperUndCh isUpperUndDigCh upperUndSub n0 nr hw hfuse1)]
  have hmal2 : fix_malformed_self_parameters
      ("def ".data ++ ((n0 :: nr) ++ "(self)".data)) =
      "def ".data ++ ((n0 :: nr) ++ "(self)".data) := by
    unfold fix_malformed_self_parameters runRw
    rw [rwGo_defLead isUpperCh isWordCh _
        (rwGo_name_parenself isUpperCh isWordCh (by decide) upperSub n0 nr hw hfuse2),
      rwGo_defLead isLowerCh isWordCh _
        (rwGo_name_parenself isLowerCh isWordCh (by decide) lowerSub n0 nr hw hfuse2),
      rwGo_defLead isUpperUndCh isUpperUndDigCh _
        (rwGo_name_parenself isUpperUndCh isUpperUndDigCh (by decide) upperUndSub
          n0 nr hw hfuse2)]
  have hdup1 := fix_duplicate_eq_self_of_no_comma
    (doc_char_free (n0 :: nr) hw "()".data ',' (by decide) (by decide) (by decide))
  have hdup2 := fix_duplicate_eq_self_of_no_comma
    (doc_char_free (n0 :: nr) hw "(self)".data ',' (by decide) (by decide) (by decide))
  have hmiss1 := fix_missing_eq_self hAny1
  have hmiss2 := fix_missing_eq_self hAny2
  have hswig2 : fix_common_swig_issues ("def ".data ++ ((n0 :: nr) ++ "(self)".data)) =
      "def ".data ++ ((n0 :: nr) ++ "(self)".data) := by
    unfold fix_common_swig_issues
    rw [runRw_eq_self (fun p t ht => defEmptyMatch_none_on_defself n0 nr hw p t ht)]
    exact swig_tail_def_self n0 nr hw
  have hswig1 : fix_common_swig_issues ("def ".data ++ ((n0 :: nr) ++ "()".data)) =
      "def ".data ++ ((n0 :: nr) ++ "(self)".data) := by
    unfold fix_common_swig_issues
    have hfire : runRw defEmptyMatch ("def ".data ++ ((n0 :: nr) ++ "()".data)) =
        "def ".data ++ ((n0 :: nr) ++ "(self)".data) := by
      unfold runRw
      rw [show ("def ".data ++ ((n0 :: nr) ++ "()".data)).length =
        ('e' :: 'f' :: ' ' :: ((n0 :: nr) ++ "()".data)).length + 1 from rfl]
      exact rwGo_defempty_fire n0 nr hw _
    rw [hfire]
    exact swig_tail_def_self n0 nr hw
  constructor
  · show fix_common_swig_issues
        (fix_missing_type_imports
          (fix_duplicate_self_parameters
            (fix_malformed_self_parameters
              ("def ".data ++ ((n0 :: nr) ++ "()".data))))) = _
    rw [hmal1, hdup1, hmiss1, hswig1]
  · show fix_common_swig_issues
        (fix_missing_type_imports
          (fix_duplicate_self_parameters
            (fix_malformed_self_parameters
              ("def ".data ++ ((n0 :: nr) ++ "(self)".data))))) = _
    rw [hmal2, hdup2, hmiss2, hswig2]

/-- C9 witness: at the identifier `f`, the pipeline maps `def f()` to
`def f(self)` and leaves `def f(self)` unchanged. -/
theorem claim_C9_amended_witness :
    post_process_stub_text "def f()".data = "def f(self)".data ∧
    post_process_stub_text "def f(self)".data = "def f(self)".data :=
  claim_C9_amended "f".data (by decide) (by decide) (by decide) (by decide)
    (by decide) (by decide)

/-- C4 counterexample: for the fused identifier `selfselfY` — which has the
form `self<Name>` with `<Name> = selfY` starting with a lowercase letter — the
demangling step does not produce `self, selfY`: the third pattern re-splits
the name, yielding `self, self, Y`. -/
theorem claim_C4_counterexample :
    fix_malformed_self_parameters "selfselfY".data = "self, self, Y".data ∧
    "self, self, Y".data ≠ "self, ".data ++ "selfY".data := by
  refine ⟨by decide, by decide⟩

/-- C4 amended: for a document consisting of a fused identifier `self<Name>`
at a word boundary, where `<Name>` is a word-character run starting with an
uppercase letter, a lowercase letter, or an underscore, the demangling step
rewrites it to `self, <Name>` with `<Name>` reproduced character-for-character
unchanged — provided `<Name>` does not itself begin with `self` followed by an
uppercase letter or underscore (in which case the third pattern re-splits it,
see the counterexample). -/
theorem claim_C4_amended (d : Char) (tl : Txt)
    (hw : ∀ c ∈ d :: tl, isWordCh c = true)
    (hd : (isUpperCh d || isLowerCh d || d == '_') = true)
    (hns : startsSelfUpperUnd (d :: tl) = false) :
    fix_malformed_self_parameters ("self".data ++ d :: tl) =
      "self, ".data ++ d :: tl := by
  have hfire : ∀ first rest : Char → Bool, first d = true →
      runRw (selfMatch first rest) ("self".data ++ d :: tl) =
        "self, ".data ++ d :: tl := by
    intro first rest hfd
    show rwGo (selfMatch first rest) ("self".data ++ d :: tl).length false _ = _
    have hlen : ("self".data ++ d :: tl).length = (4 + tl.length) + 1 := by
      simp [List.length_append]
      omega
    rw [hlen]
    exact rwGo_selfword_fire first rest d tl hw hfd _
  have hskip : ∀ first rest : Char → Bool, first d = false →
      runRw (selfMatch first rest) ("self".data ++ d :: tl) =
        "self".data ++ d :: tl :=
    fun first rest hfd => rwGo_selfhead_skip first rest d tl hw hfd _
  have hcommaSkip : ∀ first rest : Char → Bool, first ',' = false →
      selfMatch first rest false (d :: tl) = none →
      runRw (selfMatch first rest) ("self, ".data ++ d :: tl) =
        "self, ".data ++ d :: tl :=
    fun first rest h1 h2 => rwGo_selfcomma_skip first rest h1 d tl hw h2 _
  unfold fix_malformed_self_parameters
  have hd3 : (isUpperCh d = true ∨ isLowerCh d = true) ∨ d = '_' := by
    simpa using hd
  rcases hd3 with (hA | hB) | hC
  · have hds : ('s' == d) = false :=
      ne_s_of_upperUnd (by simp [isUpperUndCh, hA])
    rw [hfire isUpperCh isWordCh hA,
      hcommaSkip isLowerCh isWordCh (by decide)
        (selfMatch_none_of_not_starts (startsWithL_self_head_false tl hds)),
      hcommaSkip isUpperUndCh isUpperUndDigCh (by decide)
        (selfMatch_none_of_not_starts (startsWithL_self_head_false tl hds))]
  · rw [hskip isUpperCh isWordCh (not_upper_of_lower hB),
      hfire isLowerCh isWordCh hB,
      hcommaSkip isUpperUndCh isUpperUndDigCh (by decide)
        (selfMatch_upperUnd_none hns)]
  · have hd' : d = '_' := hC
    rw [hskip isUpperCh isWordCh (by rw [hd']; decide),
      hskip isLowerCh isWordCh (by rw [hd']; decide),
      hfire isUpperUndCh isUpperUndDigCh (by rw [hd']; decide)]

/-- C4 witness: the fused identifier `selfPosition` is demangled to
`self, Position`, with the name reproduced unchanged. -/
theorem claim_C4_amended_witness :
    fix_malformed_self_parameters "selfPosition".data = "self, Position".data :=
  claim_C4_amended 'P' "osition".data (by decide) (by decide) (by decide)

/-- C6 counterexample: the document `x: Any` references the dynamic-type
marker and contains no import of it, yet the type-import completion step
injects nothing, because its heuristic treats any occurrence of the marker
within the first ten lines as an existing import. -/
theorem claim_C6_counterexample :
    containsSub "Any".data "x: Any".data = true ∧
    containsSub "import".data "x: Any".data = false ∧
    fix_missing_type_imports "x: Any".data = "x: Any".data := by
  refine ⟨by decide, by decide, by decide⟩

/-- C6 amended: the type-import completion's detection is positional and
substring-based, covering every branch of the code.  (i) A document without
the marker `Any` is unchanged.  (ii) A document with `Any` somewhere within
its first ten lines — even outside any import — is unchanged.  (iii) If `Any`
occurs only past the first ten lines and no line among the first ten contains
the substring `from typing import`, a standalone `from typing import Any`
line is prepended.  (iv) If a line among the first ten contains that
substring, then: nothing is added when no line of the document *starts with*
`from typing import` (substring-only detection), nothing is added when the
first such line already contains `Any` anywhere (such as `AnyStr`), and
otherwise that first line is extended with `, Any` — with ` Any` when it
ends in `import` and so names nothing yet. -/
theorem claim_C6_amended : ∀ s : Txt,
    (containsSub "Any".data s = false → fix_missing_type_imports s = s) ∧
    (containsSub "Any".data s = true →
      ((splitNl s).take 10).any (fun l => containsSub "Any".data l) = true →
      fix_missing_type_imports s = s) ∧
    (containsSub "Any".data s = true →
      ((splitNl s).take 10).any (fun l => containsSub "Any".data l) = false →
      ((splitNl s).take 10).any (fun l => containsSub "from typing import".data l) = false →
      fix_missing_type_imports s = "from typing import Any".data ++ '\n' :: s) ∧
    (containsSub "Any".data s = true →
      ((splitNl s).take 10).any (fun l => containsSub "Any".data l) = false →
      ((splitNl s).take 10).any (fun l => containsSub "from typing import".data l) = true →
      ((∀ l ∈ splitNl s, startsWithL "from typing import".data l = false) →
        fix_missing_type_imports s = s) ∧
      (∀ pre l post, splitNl s = pre ++ l :: post →
        (∀ l2 ∈ pre, startsWithL "from typing import".data l2 = false) →
        startsWithL "from typing import".data l = true →
        (containsSub "Any".data l = true → fix_missing_type_imports s = s) ∧
        (containsSub "Any".data l = false → endsWithL "import".data l = true →
          fix_missing_type_imports s = joinNl (pre ++ (l ++ " Any".data) :: post)) ∧
        (containsSub "Any".data l = false → endsWithL "import".data l = false →
          fix_missing_type_imports s = joinNl (pre ++ (l ++ ", Any".data) :: post)))) := by
  intro s
  have hbranch : containsSub "Any".data s = true →
      ((splitNl s).take 10).any (fun l => containsSub "Any".data l) = false →
      ((splitNl s).take 10).any (fun l => containsSub "from typing import".data l) = true →
      fix_missing_type_imports s = joinNl (extendTyping (splitNl s)) := by
    intro h1 h2 h3
    unfold fix_missing_type_imports
    rw [h1, h2, h3]
    simp
  refine ⟨fun h => fix_missing_eq_self h, ?_, ?_, ?_⟩
  · intro h1 h2
    unfold fix_missing_type_imports
    rw [h1, h2]
    simp [joinNl_splitNl]
  · intro h1 h2 h3
    unfold fix_missing_type_imports
    rw [h1, h2, h3]
    simp only [Bool.not_false, Bool.and_true, if_true, if_false, Bool.false_eq_true,
      if_pos rfl]
    rw [joinNl_cons _ (splitNl_ne_nil s), joinNl_splitNl]
  · intro h1 h2 h3
    constructor
    · intro hnostart
      rw [hbranch h1 h2 h3, extendTyping_no_start hnostart, joinNl_splitNl]
    · intro pre l post hsplit hpre hl
      refine ⟨?_, ?_, ?_⟩
      · intro hAnyl
        rw [hbranch h1 h2 h3, hsplit, extendTyping_split pre l post hpre hl,
          if_pos hAnyl, ← hsplit, joinNl_splitNl]
      · intro hAnyl hend
        rw [hbranch h1 h2 h3, hsplit, extendTyping_split pre l post hpre hl,
          if_neg (by simp [hAnyl]), if_pos hend]
      · intro hAnyl hend
        rw [hbranch h1 h2 h3, hsplit, extendTyping_split pre l post hpre hl,
          if_neg (by simp [hAnyl]), if_neg (by simp [hend])]

/-- C6 witness: a marker-free document is unchanged; a marker within the
first ten lines suppresses injection; a marker past the first ten lines with
no typing facility in sight gets the standalone line prepended; and with a
clean typing facility line, the list form is extended in place. -/
theorem claim_C6_amended_witness :
    fix_missing_type_imports "pass".data = "pass".data ∧
    fix_missing_type_imports "x: Any".data = "x: Any".data ∧
    fix_missing_type_imports "a\nb\nc\nd\ne\nf\ng\nh\ni\nj\nx: Any".data =
      "from typing import Any".data ++ '\n' :: "a\nb\nc\nd\ne\nf\ng\nh\ni\nj\nx: Any".data ∧
    fix_missing_type_imports
        "from typing import List\nl1\nl2\nl3\nl4\nl5\nl6\nl7\nl8\nl9\nx: Any".data =
      "from typing import List, Any\nl1\nl2\nl3\nl4\nl5\nl6\nl7\nl8\nl9\nx: Any".data := by
  refine ⟨(claim_C6_amended "pass".data).1 (by decide),
    (claim_C6_amended "x: Any".data).2.1 (by decide) (by decide),
    (claim_C6_amended "a\nb\nc\nd\ne\nf\ng\nh\ni\nj\nx: Any".data).2.2.1
      (by decide) (by decide) (by decide),
    ?_⟩
  have h := ((claim_C6_amended
      "from typing import List\nl1\nl2\nl3\nl4\nl5\nl6\nl7\nl8\nl9\nx: Any".data).2.2.2
      (by decide) (by decide) (by decide)).2
      [] "from typing import List".data
      ["l1".data, "l2".data, "l3".data, "l4".data, "l5".data, "l6".data, "l7".data,
       "l8".data, "l9".data, "x: Any".data]
      (by decide) (by decide) (by decide)
  rw [h.2.2 (by decide) (by decide)]
  decide

/-- C8 counterexample: an invocation with too few command-line arguments
terminates with exit code 1 even though mypy is available and every
sub-namespace stub generation succeeds, refuting the stated `iff`. -/
theorem claim_C8_counterexample :
    mainExitCode false true (fun _ => RunOutcome.ok) = 1 ∧
    successCount (fun _ => RunOutcome.ok) ≠ 0 := by
  refine ⟨by decide, by decide⟩

/-- C8 amended: the CLI exits 1 iff it is invoked with fewer than the required
arguments, or mypy cannot be made available, or no sub-namespace stub
generation nominally succeeds; it exits 0 otherwise.  A module run with a
nonzero tool return code (warnings) still counts as a nominal success. -/
theorem claim_C8_amended (argcOk mypyOk : Bool) (runs : String → RunOutcome) :
    (mainExitCode argcOk mypyOk runs = 1 ↔
      argcOk = false ∨ mypyOk = false ∨ successCount runs = 0) ∧
    (mainExitCode argcOk mypyOk runs = 0 ↔
      argcOk = true ∧ mypyOk = true ∧ successCount runs ≠ 0) ∧
    (∀ m, m ∈ stubgenModules → runs m ≠ RunOutcome.err → successCount runs ≠ 0) := by
  refine ⟨?_, ?_, ?_⟩
  · cases argcOk <;> cases mypyOk <;>
      by_cases hc : successCount runs = 0 <;>
      simp [mainExitCode, generateStubsOk, hc]
  · cases argcOk <;> cases mypyOk <;>
      by_cases hc : successCount runs = 0 <;>
      simp [mainExitCode, generateStubsOk, hc]
  · intro m hm hok
    have : m ∈ stubgenModules.filter (fun x => runs x != RunOutcome.err) :=
      List.mem_filter.mpr ⟨hm, by simpa using hok⟩
    unfold successCount
    intro hlen
    rw [List.length_eq_zero] at hlen
    rw [hlen] at this
    exact absurd this (List.not_mem_nil m)

/-- C8 witness: an invocation where every module run returns a nonzero code
(warnings only) exits 0, and a warning run counts towards success. -/
theorem claim_C8_amended_witness :
    mainExitCode true true (fun _ => RunOutcome.warn) = 0 ∧
    successCount (fun _ => RunOutcome.warn) ≠ 0 :=
  ⟨((claim_C8_amended true true (fun _ => RunOutcome.warn)).2.1).mpr
      ⟨rfl, rfl, by decide⟩,
   (claim_C8_amended true true (fun _ => RunOutcome.warn)).2.2 "common"
      (by decide) (by decide)⟩

/-- C2: for every partition of the sub-namespaces into available (`env m =
some attrs`) and import-failing (`env m = none`) sets, initialization is a
total function and: (i) every submodule name is bound — to the module when
available, to the `None` sentinel when its import fails; (ii) every class
binding in the flat namespace originates from an available submodule whose
alias table lists it and whose attributes contain it; (iii) the expected
symbols of a failed submodule are unbound; (iv) `__all__` is exactly the
nominal list filtered to names bound to a non-sentinel value; hence (v) a
failed submodule's name and all its expected symbols are absent from
`__all__`. -/
theorem claim_C2 (env : Env) (ver : Option String) :
    (∀ m, m ∈ requiredModules ++ optionalModules →
      gget (pyGlobals env ver) m =
        some (match env m with
              | some _ => PyVal.module m
              | none => PyVal.pynone)) ∧
    (∀ c m0 c0, gget (pyGlobals env ver) c = some (PyVal.cls m0 c0) →
      c0 = c ∧ ∃ cl attrs, (m0, cl) ∈ aliasTables ∧ env m0 = some attrs ∧
        c ∈ cl ∧ attrs.contains c = true) ∧
    (∀ mc ∈ aliasTables, env mc.1 = none → ∀ c ∈ mc.2,
      gget (pyGlobals env ver) c = none) ∧
    (∀ n, n ∈ pyAll env ver ↔ n ∈ nominalAll ∧
      ∃ v, gget (pyGlobals env ver) n = some v ∧ v ≠ PyVal.pynone) ∧
    (∀ mc ∈ aliasTables, env mc.1 = none →
      mc.1 ∉ pyAll env ver ∧ ∀ c ∈ mc.2, c ∉ pyAll env ver) := by
  have part1 : ∀ m, m ∈ requiredModules ++ optionalModules →
      gget (pyGlobals env ver) m =
        some (match env m with
              | some _ => PyVal.module m
              | none => PyVal.pynone) := by
    intro m hm
    rw [gget_pyGlobals_split]
    have hmod : ggetAux m none (moduleBinds env) =
        some (match env m with
              | some _ => PyVal.module m
              | none => PyVal.pynone) :=
      ggetAux_map_nodup (f := fun x =>
        match env x with
        | some _ => PyVal.module x
        | none => PyVal.pynone) none hm (by decide)
    rw [hmod]
    rw [ggetAux_of_not_mem (g := aliasBinds env) ?hal _]
    case hal =>
      intro p hp
      rcases mem_aliasBinds hp with ⟨mc, hmc, attrs, _, hcl, _, _⟩
      have : p.1 ≠ m := fun hc => (modules_facts m hm).2 mc hmc (hc ▸ hcl)
      simpa using this
    rw [ggetAux_cons, ggetAux_nil]
    rw [if_neg (by simpa using fun hc => (modules_facts m hm).1 hc.symm)]
  have part3 : ∀ mc ∈ aliasTables, env mc.1 = none → ∀ c ∈ mc.2,
      gget (pyGlobals env ver) c = none := by
    intro mc hmc henv c hc
    refine gget_none_of_unbound env ver (tables_disjoint mc hmc c hc).1 ?_
      (tables_disjoint mc hmc c hc).2.1
    intro mc2 hmc2 hsome hcin
    by_cases hm2 : mc2.1 = mc.1
    · rw [hm2, henv] at hsome
      cases hsome
    · exact (tables_disjoint mc hmc c hc).2.2 mc2 hmc2 hm2 hcin
  have part4 : ∀ n, n ∈ pyAll env ver ↔ n ∈ nominalAll ∧
      ∃ v, gget (pyGlobals env ver) n = some v ∧ v ≠ PyVal.pynone := by
    intro n
    unfold pyAll
    constructor
    · intro hmem
      have h := List.mem_filter.mp hmem
      refine ⟨h.1, ?_⟩
      cases hg : gget (pyGlobals env ver) n with
      | none => rw [hg] at h; simp at h
      | some v =>
        cases v with
        | pynone => rw [hg] at h; simp at h
        | module a => exact ⟨PyVal.module a, rfl, by simp⟩
        | cls a b => exact ⟨PyVal.cls a b, rfl, by simp⟩
        | str a => exact ⟨PyVal.str a, rfl, by simp⟩
    · rintro ⟨hmem, v, hv, hne⟩
      refine List.mem_filter.mpr ⟨hmem, ?_⟩
      rw [hv]
      cases v with
      | pynone => exact absurd rfl hne
      | module a => rfl
      | cls a b => rfl
      | str a => rfl
  refine ⟨part1, ?_, part3, part4, ?_⟩
  · intro c m0 c0 hval
    rw [gget_pyGlobals_split] at hval
    rw [ggetAux_cons, ggetAux_nil] at hval
    by_cases hv : (("__version__", PyVal.str (ver.getD "0.0.1")).1 == c) = true
    · rw [if_pos hv] at hval
      simp at hval
    · rw [if_neg hv] at hval
      rcases ggetAux_some_origin hval with ⟨p, hp, hpn, hpr⟩ | hr
      · rcases mem_aliasBinds hp with ⟨mc, hmc, attrs, he, hcl, hat, hshape⟩
        rw [hshape] at hpr
        have hinj := Option.some.inj hpr
        cases hinj
        exact ⟨hpn, mc.2, attrs, (by rwa [show (mc.1, mc.2) = mc from rfl]), he,
          hpn ▸ hcl, hpn ▸ hat⟩
      · rcases ggetAux_some_origin hr.symm with ⟨p, hp, _, hpr⟩ | hnone
        · rcases (mem_moduleBinds hp).2 with hmod | hmod <;>
            rw [hmod] at hpr <;> simp at hpr
        · simp at hnone
  · intro mc hmc henv
    constructor
    · intro hmem
      rcases ((part4 mc.1).mp hmem).2 with ⟨v, hv, hne⟩
      have := part1 mc.1 (tables_modules mc hmc)
      rw [henv] at this
      rw [this] at hv
      exact hne (Option.some.inj hv).symm
    · intro c hc hmem
      rcases ((part4 c).mp hmem).2 with ⟨v, hv, _⟩
      rw [part3 mc hmc henv c hc] at hv
      cases hv

/-- C2 witness: with only `simbody` available (exposing only `Vec3`) and
`simulation` failing, `simulation` is bound to the sentinel, its expected
symbol `Model` is unbound, and both are absent from `__all__`. -/
theorem claim_C2_witness :
    gget (pyGlobals (fun m => if m == "simbody" then some ["Vec3"] else none) none)
      "simulation" = some PyVal.pynone ∧
    gget (pyGlobals (fun m => if m == "simbody" then some ["Vec3"] else none) none)
      "Model" = none ∧
    "simulation" ∉ pyAll (fun m => if m == "simbody" then some ["Vec3"] else none) none ∧
    "Model" ∉ pyAll (fun m => if m == "simbody" then some ["Vec3"] else none) none := by
  have h := claim_C2 (fun m => if m == "simbody" then some ["Vec3"] else none) none
  refine ⟨?_, ?_, ?_, ?_⟩
  · simpa using h.1 "simulation" (by decide)
  · exact h.2.2.1 ("simulation", simulationClasses) (by decide) (by decide)
      "Model" (by decide)
  · exact (h.2.2.2.2 ("simulation", simulationClasses) (by decide) (by decide)).1
  · exact (h.2.2.2.2 ("simulation", simulationClasses) (by decide) (by decide)).2
      "Model" (by decide)

/-- C10: the geometry-search-path registration never executes: the name
`ModelVisualizer` appears in none of the hand-maintained alias lists (second
conjunct) nor in the nominal export list (third conjunct), so it is never
bound, the guarded call raises `NameError` in every environment, and the
geometry directory is left unregistered (first conjunct) — for every import
environment, version outcome, and directory state. -/
theorem claim_C10 (env : Env) (ver : Option String) (geomDirExists : Bool) :
    geometryRegistered env ver geomDirExists = false ∧
    (∀ mc ∈ aliasTables, "ModelVisualizer" ∉ mc.2) ∧
    "ModelVisualizer" ∉ nominalAll := by
  refine ⟨?_, by decide, by decide⟩
  unfold geometryRegistered
  rw [gget_none_of_unbound env ver (by decide) ?h2 (by decide)]
  case h2 =>
    intro mc hmc _
    exact (by decide : ∀ mc ∈ aliasTables, "ModelVisualizer" ∉ mc.2) mc hmc
  simp

/-- C3 witness: a trigger-free document is a fixed point of the pipeline, and
a document whose once-repaired form is fixed by each individual step is
idempotent under the pipeline. -/
theorem claim_C3_amended_witness :
    post_process_stub_text "x = 1".data = "x = 1".data ∧
    post_process_stub_text (post_process_stub_text "def a()".data) =
      post_process_stub_text "def a()".data :=
  ⟨((claim_C3_amended "x = 1".data).1 (by decide) (by decide) (by decide)).1,
   (claim_C3_amended "def a()".data).2 (by decide) (by decide) (by decide) (by decide)⟩

end PyOpenSim
